import Mathlib

/-!
# sniffex: packet dissector and hex/ASCII payload dump

A shallow embedding of `src/sniffex.c` (`print_hex_ascii_line`, `print_payload`,
`got_packet`) and theorems about it.

Conventions of the embedding

* Memory reached through a `const u_char *` is a function `Nat → Nat` from the byte
  offset to the stored value; every dereference goes through `rd`, which reduces the
  value modulo 256 (a `u_char`).  A pointer is the offset it points at.
* `int` values are `Int`; the sizes computed from masked nibbles are `Nat`.
* Text written to `stdout` by the hex dump is a `List Char`, in the order written.
* The host is little-endian (x86): a `u_short` or `u_int` field is loaded with its
  first byte as the least significant one, and `ntohs` swaps the two bytes.
-/

namespace Sniffex

/-! ## libc formatting used by the source -/

/-- Left-pad `ds` with the character `0` up to `width` characters. -/
def zero_pad (width : Nat) (ds : List Char) : List Char :=
  List.replicate (width - ds.length) '0' ++ ds

/-- The conversion `%05d` of `printf`: decimal, at least five characters wide,
padded with zeros after the sign. -/
def fmt_05d (v : Int) : List Char :=
  if v < 0 then '-' :: zero_pad 4 (Nat.toDigits 10 v.natAbs)
  else zero_pad 5 (Nat.toDigits 10 v.natAbs)

/-- The conversion `%02x` of `printf`: lowercase hexadecimal, at least two digits. -/
def fmt_02x (v : Nat) : List Char :=
  zero_pad 2 (Nat.toDigits 16 v)

/-- The function `isprint` of `ctype.h` in the "C" locale (the program never calls
`setlocale`): the characters 0x20 to 0x7e. -/
def isprint (c : Nat) : Bool :=
  decide (0x20 ≤ c) && decide (c ≤ 0x7e)

/-- Dereference of a `const u_char *`: the byte stored at offset `p`. -/
def rd (mem : Nat → Nat) (p : Nat) : Nat :=
  mem p % 256

/-! ## `print_hex_ascii_line` (sniffex.c 111-155) -/

/-- Lines 121-128: the loop `for (i = 0; i < len; i++)` printing `"%02x "` for each
byte, and one more space after the byte with `i == 7`. -/
def hex_part (mem : Nat → Nat) (payload : Nat) (len : Int) : List Char :=
  (List.range len.toNat).flatMap fun i =>
    fmt_02x (rd mem (payload + i)) ++ [' '] ++ (if i = 7 then [' '] else [])

/-- Lines 129-131: `if (len < 8) printf(" ")`. -/
def short_gap (len : Int) : List Char :=
  if len < 8 then [' '] else []

/-- Lines 133-139: `if (len < 16)`, print three spaces `gap = 16 - len` times. -/
def fill_gap (len : Int) : List Char :=
  if len < 16 then (List.range (16 - len).toNat).flatMap fun _ => [' ', ' ', ' '] else []

/-- Lines 142-150: the loop printing each byte itself (`"%c"`) when `isprint` holds
for it and `"."` otherwise. -/
def ascii_part (mem : Nat → Nat) (payload : Nat) (len : Int) : List Char :=
  (List.range len.toNat).map fun i =>
    if isprint (rd mem (payload + i)) then Char.ofNat (rd mem (payload + i)) else '.'

/-- The text before the ASCII column: offset field, hex columns, padding and the
separator of line 140. -/
def line_head (mem : Nat → Nat) (payload : Nat) (len : Int) (offset : Int) : List Char :=
  fmt_05d offset ++ [' ', ' ', ' '] ++ hex_part mem payload len ++ short_gap len
    ++ fill_gap len ++ [' ', ' ', ' ']

/-- The function `print_hex_ascii_line(payload, len, offset)`: the characters it
writes to `stdout`. -/
def print_hex_ascii_line (mem : Nat → Nat) (payload : Nat) (len : Int) (offset : Int) :
    List Char :=
  line_head mem payload len offset ++ ascii_part mem payload len ++ ['\n']

/-! ## `print_payload` (sniffex.c 160-198) -/

/-- One call `print_hex_ascii_line(ch, line_len, offset)` made by `print_payload`. -/
structure LineCall where
  ch : Nat
  len : Int
  offset : Int
  deriving DecidableEq, Repr

/-- Lines 178-195, the loop `for (;;)`.  `line_len = line_width % len_rem` is the
remainder of C (truncated division, `Int.tmod`); it is never negative, so the pointer
`ch + line_len` stays an offset.  The loop is entered with `len_rem > 16` only. -/
def print_payload_loop (len_rem : Int) (ch : Nat) (offset : Int) : List LineCall :=
  let line_len := Int.tmod 16 len_rem
  if len_rem - line_len ≤ 16 then
    [⟨ch, line_len, offset⟩, ⟨ch + line_len.toNat, len_rem - line_len, offset + 16⟩]
  else
    ⟨ch, line_len, offset⟩ ::
      print_payload_loop (len_rem - line_len) (ch + line_len.toNat) (offset + 16)
termination_by len_rem.toNat
decreasing_by
  rename_i h
  have h16 : (16 : Int) < len_rem := by
    by_contra hc
    have h0 : (0 : Int) ≤ Int.tmod 16 len_rem := Int.tmod_nonneg len_rem (by decide)
    omega
  have ht : Int.tmod 16 len_rem = 16 := by
    rw [Int.tmod_eq_emod (by decide) (by omega)]
    exact Int.emod_eq_of_lt (by decide) h16
  omega

/-- The calls of `print_hex_ascii_line` made by `print_payload(payload, len)`, in
order. -/
def print_payload_calls (payload : Nat) (len : Int) : List LineCall :=
  if len ≤ 0 then []
  else if len ≤ 16 then [⟨payload, len, 0⟩]
  else print_payload_loop len payload 0

/-- The function `print_payload(payload, len)`: the characters it writes to `stdout`. -/
def print_payload (mem : Nat → Nat) (payload : Nat) (len : Int) : List Char :=
  (print_payload_calls payload len).flatMap fun c =>
    print_hex_ascii_line mem c.ch c.len c.offset

/-- The indices dereferenced by `print_hex_ascii_line(payload, len, offset)`: the
bytes `payload[0 .. len)` in the hex loop, then again in the ASCII loop. -/
def print_hex_ascii_line_reads (payload : Nat) (len : Int) : List Nat :=
  (List.range len.toNat).map (payload + ·) ++ (List.range len.toNat).map (payload + ·)

/-- The indices dereferenced by `print_payload(payload, len)`, call after call. -/
def print_payload_reads (payload : Nat) (len : Int) : List Nat :=
  (print_payload_calls payload len).flatMap fun c => print_hex_ascii_line_reads c.ch c.len

/-! ## Headers (sniffex.c 15-80) -/

/-- Ethernet headers are always exactly 14 bytes. -/
def SIZE_ETHERNET : Nat := 14

/-- Protocol numbers of `netinet/in.h`. -/
def IPPROTO_IP : Nat := 0

/-- Protocol number of ICMP in `netinet/in.h`. -/
def IPPROTO_ICMP : Nat := 1

/-- Protocol number of TCP in `netinet/in.h`. -/
def IPPROTO_TCP : Nat := 6

/-- Protocol number of UDP in `netinet/in.h`. -/
def IPPROTO_UDP : Nat := 17

/-- Load of a `u_short` field at offset `p` on the little-endian host. -/
def load_u16 (mem : Nat → Nat) (p : Nat) : Nat :=
  rd mem p + 256 * rd mem (p + 1)

/-- Load of a `u_int` field at offset `p` on the little-endian host. -/
def load_u32 (mem : Nat → Nat) (p : Nat) : Nat :=
  rd mem p + 256 * rd mem (p + 1) + 65536 * rd mem (p + 2) + 16777216 * rd mem (p + 3)

/-- The function `ntohs` on the little-endian host: swap the two bytes of a `u_short`. -/
def ntohs (x : Nat) : Nat :=
  (x % 256) * 256 + (x / 256) % 256

/-- The macro `IP_HL(ip)`: `ip_vhl & 0x0f`, with `ip_vhl` the first byte of the header. -/
def IP_HL (mem : Nat → Nat) (ip : Nat) : Nat :=
  rd mem ip &&& 0x0f

/-- The macro `TH_OFF(th)`: `(th_offx2 & 0xf0) >> 4`, with `th_offx2` at offset 12 of
`struct sniff_tcp`. -/
def TH_OFF (mem : Nat → Nat) (th : Nat) : Nat :=
  (rd mem (th + 12) &&& 0xf0) >>> 4

/-- The function `inet_ntoa` applied to the `struct in_addr` stored at offset `p`: the
four bytes in memory order, in decimal, separated by dots. -/
def inet_ntoa (mem : Nat → Nat) (p : Nat) : String :=
  String.intercalate "." ((List.range 4).map fun i => toString (rd mem (p + i)))

/-- The header `struct pcap_pkthdr` handed to the callback (time stamp left out). -/
structure pcap_pkthdr where
  caplen : Nat
  len : Nat
  deriving DecidableEq, Repr

/-- A value passed to `printf` after the format. -/
inductive Arg where
  | int (v : Int)
  | str (s : String)
  deriving DecidableEq, Repr

/-- One output action of `got_packet`: a call of `printf` with its format and
arguments, or the text written by a call of `print_payload`. -/
inductive Out where
  | printf (fmt : String) (args : List Arg)
  | print_payload (text : List Char)
  deriving DecidableEq, Repr

/-- What one call of `got_packet` does: the value of the static `count` after the
call, the output actions in order, and the packet offsets it dereferences in order. -/
structure Dissection where
  count : Int
  out : List Out
  reads : List Nat
  deriving DecidableEq, Repr

/-- A 32-bit `int` after an arithmetic step: two's complement wrap-around. -/
def wrap_int (x : Int) : Int :=
  (x + 2147483648) % 4294967296 - 2147483648

/-! ## `got_packet` (sniffex.c 203-297) -/

/-- Line 227: `size_ip = IP_HL(ip) * 4`, with `ip = packet + SIZE_ETHERNET`. -/
def size_ip (packet : Nat → Nat) : Nat :=
  IP_HL packet SIZE_ETHERNET * 4

/-- Line 265: `size_tcp = TH_OFF(tcp) * 4`, with `tcp = packet + SIZE_ETHERNET + size_ip`. -/
def size_tcp (packet : Nat → Nat) : Nat :=
  TH_OFF packet (SIZE_ETHERNET + size_ip packet) * 4

/-- Line 284: `size_payload = ntohs(ip->ip_len) - (size_ip + size_tcp)`, with `ip_len`
at offset 2 of `struct sniff_ip`. -/
def size_payload (packet : Nat → Nat) : Int :=
  (ntohs (load_u16 packet (SIZE_ETHERNET + 2)) : Int) - (size_ip packet + size_tcp packet)

/-- Lines 257-261: the branch `ip->ip_p == IPPROTO_UDP`, with the UDP header at
`udp_header = packet + SIZE_ETHERNET + size_ip`.  The fields `sport`, `dport` and
`len` are passed to `printf` as loaded, `len` divided by 256.  The result is the
output actions and the offsets dereferenced. -/
def got_packet_udp (packet : Nat → Nat) : List Out × List Nat :=
  let udp_header := SIZE_ETHERNET + size_ip packet
  ([.printf "**\t\tSource Port : %u\n**\t\tDestination Port : %u\n"
      [.int (load_u16 packet udp_header), .int (load_u16 packet (udp_header + 2))],
    .printf "**\t\tUDP Datagram Length : %u\n" [.int (load_u16 packet (udp_header + 4) / 256)]],
   [udp_header, udp_header + 1, udp_header + 2, udp_header + 3,
    udp_header + 4, udp_header + 5])

/-- Lines 264-293: the `else` branch, with the TCP header at
`tcp = packet + SIZE_ETHERNET + size_ip`.  `caplen` and `len` are `bpf_u_int32`
printed with `%d`.  The result is the output actions and the offsets dereferenced. -/
def got_packet_tcp (header : pcap_pkthdr) (packet : Nat → Nat) : List Out × List Nat :=
  let ip := SIZE_ETHERNET
  let tcp := SIZE_ETHERNET + size_ip packet
  if size_tcp packet < 20 then
    ([.printf "   * Invalid TCP header length: %u bytes\n" [.int (size_tcp packet)]],
     [tcp + 12])
  else
    let payload := SIZE_ETHERNET + size_ip packet + size_tcp packet
    ([.printf "   Src port: %d\n" [.int (ntohs (load_u16 packet tcp))],
      .printf "   Dst port: %d\n" [.int (ntohs (load_u16 packet (tcp + 2)))],
      .printf "Packet capture length: %d\n" [.int (wrap_int header.caplen)],
      .printf "Packet total length %d\n" [.int (wrap_int header.len)],
      .printf "Sequence number: %u\n" [.int (load_u32 packet (tcp + 4))],
      .printf "Acknowledgement number: %u\n" [.int (load_u32 packet (tcp + 8))]]
      ++ (if size_payload packet > 0 then
            [.printf "   Payload (%d bytes):\n" [.int (size_payload packet)],
             .print_payload (print_payload packet payload (size_payload packet))]
          else []),
     [tcp + 12, tcp, tcp + 1, tcp + 2, tcp + 3, tcp + 4, tcp + 5, tcp + 6, tcp + 7,
      tcp + 8, tcp + 9, tcp + 10, tcp + 11, ip + 2, ip + 3]
      ++ (if size_payload packet > 0 then print_payload_reads payload (size_payload packet)
          else []))

/-- The callback `got_packet(args, header, packet)`, started with the static counter
at `count` (`args` is not used by the source).  `ip_p` is at offset 9 of
`struct sniff_ip`, `ip_src` at 12 and `ip_dst` at 16.  The `switch` on `ip->ip_p`
returns for every protocol but TCP and UDP; the code after it tests `ip->ip_p` once
more. -/
def got_packet (count : Int) (header : pcap_pkthdr) (packet : Nat → Nat) : Dissection :=
  let out0 : List Out := [.printf "\nPacket number %d:\n" [.int count]]
  let count1 := wrap_int (count + 1)
  let ip := SIZE_ETHERNET
  if size_ip packet < 20 then
    { count := count1,
      out := out0 ++ [.printf "   * Invalid IP header length: %u bytes\n" [.int (size_ip packet)]],
      reads := [ip] }
  else
    let out1 : List Out := out0 ++
      [.printf "       From: %s\n" [.str (inet_ntoa packet (ip + 12))],
       .printf "         To: %s\n" [.str (inet_ntoa packet (ip + 16))]]
    let reads1 : List Nat :=
      [ip, ip + 12, ip + 13, ip + 14, ip + 15, ip + 16, ip + 17, ip + 18, ip + 19, ip + 9]
    let ip_p := rd packet (ip + 9)
    if ip_p = IPPROTO_TCP then
      let r := got_packet_tcp header packet
      { count := count1, out := out1 ++ [.printf "   Protocol: TCP\n" []] ++ r.1,
        reads := reads1 ++ [ip + 9] ++ r.2 }
    else if ip_p = IPPROTO_UDP then
      let r := got_packet_udp packet
      { count := count1, out := out1 ++ [.printf "   Protocol: UDP\n" []] ++ r.1,
        reads := reads1 ++ [ip + 9] ++ r.2 }
    else if ip_p = IPPROTO_ICMP then
      { count := count1, out := out1 ++ [.printf "   Protocol: ICMP\n" []], reads := reads1 }
    else if ip_p = IPPROTO_IP then
      { count := count1, out := out1 ++ [.printf "   Protocol: IP\n" []], reads := reads1 }
    else
      { count := count1, out := out1 ++ [.printf "   Protocol: unknown\n" []],
        reads := reads1 }

/-- A frame given by its bytes, as memory: the listed bytes, and zero beyond them. -/
def frame (bytes : List Nat) : Nat → Nat :=
  fun i => bytes.getD i 0

/-! ## Reading a dump back

The reader below is the one the round-trip property is stated with: it knows the
layout of a dump line and nothing about how the line was produced. -/

/-- The lowercase hexadecimal digits. -/
def lower_hex_digits : List Char :=
  "0123456789abcdef".toList

/-- Value of a lowercase hexadecimal digit. -/
def hexval (c : Char) : Option Nat :=
  if '0' ≤ c ∧ c ≤ '9' then some (c.toNat - 48)
  else if 'a' ≤ c ∧ c ≤ 'f' then some (c.toNat - 87)
  else none

/-- One hex column: two lowercase hexadecimal digits followed by one space give a
byte; anything else (a blank column) gives nothing. -/
def parse_column (cs : List Char) : Option Nat :=
  match cs with
  | h :: l :: ' ' :: _ =>
    match hexval h, hexval l with
    | some a, some b => some (16 * a + b)
    | _, _ => none
  | _ => none

/-- Position of hex column `k` (0-based) after the offset field: three characters a
column, and one more for the gap after the 8th column. -/
def column_pos (k : Nat) : Nat :=
  if k < 8 then 3 * k else 3 * k + 1

/-- The bytes of one dump line: skip the decimal offset and the three spaces after
it, then read the 16 hex columns in order, skipping the blank ones. -/
def parse_line (line : List Char) : List Nat :=
  (List.range 16).filterMap fun k =>
    parse_column (((line.dropWhile Char.isDigit).drop 3).drop (column_pos k))

/-- Split a text at its newline characters; `acc` holds the current line reversed. -/
def split_lines_aux : List Char → List Char → List (List Char)
  | [], acc => if acc = [] then [] else [acc.reverse]
  | c :: cs, acc =>
    if c = '\n' then acc.reverse :: split_lines_aux cs [] else split_lines_aux cs (c :: acc)

/-- The lines of a text, without their newline characters. -/
def split_lines (text : List Char) : List (List Char) :=
  split_lines_aux text []

/-- The bytes of a whole dump: the bytes of its lines, in line order. -/
def parse_dump (text : List Char) : List Nat :=
  (split_lines text).flatMap parse_line

/-! ## Reading the output of `got_packet` -/

/-- The format of the message of line 229. -/
def fmt_invalid_ip : String := "   * Invalid IP header length: %u bytes\n"

/-- The format of the message of line 267. -/
def fmt_invalid_tcp : String := "   * Invalid TCP header length: %u bytes\n"

/-- Whether an output action is a `printf` with the format `fmt`. -/
def is_printf (fmt : String) : Out → Bool
  | .printf f _ => f == fmt
  | .print_payload _ => false

/-- The dissection reported an invalid IP header length. -/
def invalid_ip_reported (d : Dissection) : Bool :=
  d.out.any (is_printf fmt_invalid_ip)

/-- The dissection reported an invalid TCP header length. -/
def invalid_tcp_reported (d : Dissection) : Bool :=
  d.out.any (is_printf fmt_invalid_tcp)

/-- The dissection reported a malformed frame: one of the two header-length messages. -/
def malformed_reported (d : Dissection) : Bool :=
  invalid_ip_reported d || invalid_tcp_reported d

/-- The hex-dump text written during a dissection. -/
def dump_text (d : Dissection) : List Char :=
  d.out.flatMap fun o =>
    match o with
    | .printf _ _ => []
    | .print_payload text => text

/-- The big-endian 16-bit value of the two bytes at offset `p`. -/
def be16 (mem : Nat → Nat) (p : Nat) : Nat :=
  256 * rd mem p + rd mem (p + 1)

/-! ## Sample frames and output queries -/

/-- A frame whose first 10 bytes are captured, lying in a buffer whose later bytes
hold an IP header with header length 20 and protocol ICMP. -/
def short_frame : List Nat :=
  [0, 0, 0, 0, 0, 0, 0, 0, 0, 0, 0, 0, 8, 0,
   0x45, 0, 0, 28, 0, 0, 0, 0, 64, 1, 0, 0, 10, 0, 0, 1, 10, 0, 0, 2]

/-- The argument lists of the `printf` calls with format `fmt`, in order. -/
def printed (fmt : String) (d : Dissection) : List (List Arg) :=
  d.out.filterMap fun o =>
    match o with
    | .printf f args => if f = fmt then some args else none
    | .print_payload _ => none

/-- A TCP frame: IP header of 20 bytes with total length 40, TCP header with data
offset 4 (16 bytes declared). -/
def bad_tcp_frame : List Nat :=
  [0, 0, 0, 0, 0, 0, 0, 0, 0, 0, 0, 0, 8, 0,
   0x45, 0, 0, 40, 0, 0, 0, 0, 64, 6, 0, 0, 10, 0, 0, 1, 10, 0, 0, 2,
   0x1f, 0x90, 0, 80, 0, 0, 0, 1, 0, 0, 0, 2, 0x40, 0x10, 0, 0, 0, 0, 0, 0]

/-- The synthetic TCP frame of the specification: link header, IP header with version 4,
header length 20, protocol 6 and total length 40, TCP header of 20 bytes with ports 8080
and 80, no payload. -/
def tcp_frame : List Nat :=
  [0, 0, 0, 0, 0, 0, 0, 0, 0, 0, 0, 0, 8, 0,
   0x45, 0, 0, 40, 0, 0, 0, 0, 64, 6, 0, 0, 10, 0, 0, 1, 10, 0, 0, 2,
   0x1f, 0x90, 0, 80, 0, 0, 0, 1, 0, 0, 0, 2, 0x50, 0x10, 0, 0, 0, 0, 0, 0]

/-- A UDP frame: IP header of 20 bytes with protocol 17, UDP header with source port
53 (bytes 00 35), destination port 8080 (bytes 1f 90) and datagram length 300
(bytes 01 2c). -/
def udp_frame : List Nat :=
  [0, 0, 0, 0, 0, 0, 0, 0, 0, 0, 0, 0, 8, 0,
   0x45, 0, 1, 64, 0, 0, 0, 0, 64, 17, 0, 0, 10, 0, 0, 1, 10, 0, 0, 2,
   0x00, 0x35, 0x1f, 0x90, 0x01, 0x2c, 0, 0]

/-! ## Runs of `got_packet`, more sample frames, the divisors of the modulo -/

/-- The big-endian 32-bit value of the four bytes at offset `p`. -/
def be32 (mem : Nat → Nat) (p : Nat) : Nat :=
  16777216 * rd mem p + 65536 * rd mem (p + 1) + 256 * rd mem (p + 2) + rd mem (p + 3)

/-- The frame `tcp_frame` with the protocol byte changed to 1 (ICMP). -/
def icmp_frame : List Nat :=
  [0, 0, 0, 0, 0, 0, 0, 0, 0, 0, 0, 0, 8, 0,
   0x45, 0, 0, 40, 0, 0, 0, 0, 64, 1, 0, 0, 10, 0, 0, 1, 10, 0, 0, 2,
   0x1f, 0x90, 0, 80, 0, 0, 0, 1, 0, 0, 0, 2, 0x50, 0x10, 0, 0, 0, 0, 0, 0]

/-- A TCP frame with total length 45: headers of 20 and 20 bytes and the 5 payload
bytes `Hello`. -/
def hello_frame : List Nat :=
  [0, 0, 0, 0, 0, 0, 0, 0, 0, 0, 0, 0, 8, 0,
   0x45, 0, 0, 45, 0, 0, 0, 0, 64, 6, 0, 0, 10, 0, 0, 1, 10, 0, 0, 2,
   0x1f, 0x90, 0, 80, 0, 0, 0, 1, 0, 0, 0, 2, 0x50, 0x10, 0, 0, 0, 0, 0, 0,
   72, 101, 108, 108, 111]

/-- The format of the first message of `got_packet` (line 219). -/
def fmt_packet_number : String := "\nPacket number %d:\n"

/-- The calls of `got_packet` made for the frames handed over one after the other,
the static `count` holding `count` before the first of them. -/
def run_from (count : Int) : List (pcap_pkthdr × (Nat → Nat)) → List Dissection
  | [] => []
  | f :: rest =>
    got_packet count f.1 f.2 :: run_from (got_packet count f.1 f.2).count rest

/-- The calls of `got_packet` from process start: `static int count = 1` (line 207). -/
def run (frames : List (pcap_pkthdr × (Nat → Nat))) : List Dissection :=
  run_from 1 frames

/-- Whether the dissection called `print_payload`. -/
def print_payload_called (d : Dissection) : Bool :=
  d.out.any fun o =>
    match o with
    | .printf _ _ => false
    | .print_payload _ => true

/-- Lines 178-195 once more, recording the value of `len_rem` each time line 180
evaluates `line_width % len_rem`: one entry for each iteration of the loop `for (;;)`. -/
def print_payload_loop_divisors (len_rem : Int) : List Int :=
  let line_len := Int.tmod 16 len_rem
  if len_rem - line_len ≤ 16 then [len_rem]
  else len_rem :: print_payload_loop_divisors (len_rem - line_len)
termination_by len_rem.toNat
decreasing_by
  rename_i h
  have h16 : (16 : Int) < len_rem := by
    by_contra hc
    have h0 : (0 : Int) ≤ Int.tmod 16 len_rem := Int.tmod_nonneg len_rem (by decide)
    omega
  have ht : Int.tmod 16 len_rem = 16 := by
    rw [Int.tmod_eq_emod (by decide) (by omega)]
    exact Int.emod_eq_of_lt (by decide) h16
  omega

/-- The divisors of `line_width % len_rem` met by `print_payload(payload, len)`, in
order: none when the function returns at line 169 or 174. -/
def print_payload_divisors (len : Int) : List Int :=
  if len ≤ 0 then []
  else if len ≤ 16 then []
  else print_payload_loop_divisors len

/-! ## Auxiliary definitions of the proofs -/

/-- The call that prints line `i` of a dump of `len` bytes starting at `payload`, when
the first line has offset `offset`. -/
def chunk_call (payload : Nat) (len : Int) (offset : Int) (i : Nat) : LineCall :=
  ⟨payload + 16 * i, min 16 (len - 16 * i), offset + 16 * i⟩

/-- The hex columns of a line of `n` bytes with the padding and separator after them,
for given digit characters `h i` and `l i` of byte `i`. -/
def hex_region (h l : Nat → Char) (n : Nat) : List Char :=
  ((List.range n).flatMap fun i => [h i, l i, ' '] ++ (if i = 7 then [' '] else []))
    ++ (if (n : Int) < 8 then [' '] else [])
    ++ (if (n : Int) < 16 then (List.range (16 - (n : Int)).toNat).flatMap fun _ => [' ', ' ', ' ']
        else [])
    ++ [' ', ' ', ' ']

/-! ## Lemmas -/

theorem tmod_16_of_lt (x : Int) (h : 16 < x) : Int.tmod 16 x = 16 := by
  rw [Int.tmod_eq_emod (by decide) (by omega)]
  exact Int.emod_eq_of_lt (by decide) h

theorem print_payload_loop_eq (n : Nat) : ∀ (ch : Nat) (offset : Int), 16 < n →
    print_payload_loop (n : Int) ch offset
      = (List.range ((n + 15) / 16)).map (chunk_call ch n offset) := by
  induction n using Nat.strong_induction_on with
  | _ n ih =>
    intro ch offset hn
    rw [print_payload_loop]
    have ht : Int.tmod 16 (n : Int) = 16 := tmod_16_of_lt _ (by omega)
    simp only [ht]
    by_cases h2 : (n : Int) - 16 ≤ 16
    · rw [if_pos h2]
      have hk : (n + 15) / 16 = 2 := by omega
      rw [hk]
      simp [List.range_succ, chunk_call]
      omega
    · rw [if_neg h2]
      have hk : (n + 15) / 16 = (n - 16 + 15) / 16 + 1 := by omega
      have hc : ((n : Int) - 16) = ((n - 16 : Nat) : Int) := by omega
      rw [hk, List.range_succ_eq_map, List.map_cons, List.map_map, hc,
        ih (n - 16) (by omega) _ _ (by omega)]
      congr 1
      · simp [chunk_call]; omega
      · apply List.map_congr_left
        intro i _
        simp only [chunk_call, Function.comp, LineCall.mk.injEq]
        refine ⟨?_, ?_, ?_⟩
        · simp; omega
        · push_cast; omega
        · push_cast; omega

theorem print_payload_calls_eq (payload : Nat) (len : Int) :
    print_payload_calls payload len
      = (List.range ((len.toNat + 15) / 16)).map (chunk_call payload len 0) := by
  unfold print_payload_calls
  split
  · rename_i h
    have : len.toNat = 0 := by omega
    simp [this]
  · split
    · rename_i h0 h1
      have hk : (len.toNat + 15) / 16 = 1 := by omega
      rw [hk]
      have hr : List.range 1 = [0] := rfl
      simp only [hr, List.map_cons, List.map_nil, chunk_call, List.cons.injEq,
        and_true, LineCall.mk.injEq]
      refine ⟨by omega, ?_, by omega⟩
      rw [min_eq_right (by omega)]
      omega
    · rename_i h0 h1
      obtain ⟨n, rfl⟩ : ∃ n : Nat, len = n := ⟨len.toNat, by omega⟩
      rw [print_payload_loop_eq n payload 0 (by omega)]
      simp

set_option maxRecDepth 100000 in
theorem fmt_02x_byte : ∀ b, b < 256 →
    fmt_02x b = [Nat.digitChar (b / 16), Nat.digitChar (b % 16)] := by
  decide

theorem hexval_digitChar : ∀ d, d < 16 → hexval (Nat.digitChar d) = some d := by
  decide

theorem digitChar_lower : ∀ d, d < 16 → Nat.digitChar d ∈ lower_hex_digits := by
  decide

theorem parse_column_blank (rest : List Char) : parse_column (' ' :: rest) = none := by
  unfold parse_column
  split
  · rename_i h l r heq
    simp only [List.cons.injEq] at heq
    obtain ⟨rfl, _⟩ := heq
    have : hexval ' ' = none := by decide
    simp [this]
  · rfl

theorem parse_column_hex (b : Nat) (hb : b < 256) (rest : List Char) :
    parse_column (Nat.digitChar (b / 16) :: Nat.digitChar (b % 16) :: ' ' :: rest) = some b := by
  unfold parse_column
  simp only [hexval_digitChar (b / 16) (by omega), hexval_digitChar (b % 16) (by omega)]
  congr 1
  omega

set_option maxHeartbeats 4000000 in
theorem parse_hex_region (h l : Nat → Char) (v : Nat → Nat)
    (hv : ∀ i rest, parse_column (h i :: l i :: ' ' :: rest) = some (v i))
    (n : Nat) (hn : n ≤ 16) (rest : List Char) :
    ((List.range 16).filterMap fun k =>
        parse_column ((hex_region h l n ++ rest).drop (column_pos k)))
      = (List.range n).map v := by
  interval_cases n <;>
    simp [hex_region, List.range_succ, column_pos, hv, parse_column_blank, List.flatMap]

theorem rd_lt (mem : Nat → Nat) (p : Nat) : rd mem p < 256 :=
  Nat.mod_lt _ (by decide)

theorem digitChar_isDigit : ∀ d, d < 10 → (Nat.digitChar d).isDigit = true := by
  decide

theorem toDigitsCore_isDigit (fuel : Nat) : ∀ (n : Nat) (acc : List Char),
    (∀ c ∈ acc, c.isDigit = true) → ∀ c ∈ Nat.toDigitsCore 10 fuel n acc, c.isDigit = true := by
  induction fuel with
  | zero => intro n acc hacc; simpa [Nat.toDigitsCore] using hacc
  | succ f ih =>
    intro n acc hacc
    have hd : (Nat.digitChar (n % 10)).isDigit = true :=
      digitChar_isDigit _ (Nat.mod_lt _ (by decide))
    have hcons : ∀ c ∈ Nat.digitChar (n % 10) :: acc, c.isDigit = true := by
      intro c hc
      rcases List.mem_cons.mp hc with rfl | hc
      · exact hd
      · exact hacc c hc
    simp only [Nat.toDigitsCore]
    split
    · exact hcons
    · exact ih _ _ hcons

theorem fmt_05d_isDigit (v : Int) (hv : 0 ≤ v) : ∀ c ∈ fmt_05d v, c.isDigit = true := by
  intro c hc
  have hneg : ¬ v < 0 := by omega
  simp only [fmt_05d, hneg, if_false, zero_pad, List.mem_append, List.mem_replicate] at hc
  rcases hc with ⟨_, rfl⟩ | hc
  · decide
  · exact toDigitsCore_isDigit _ _ [] (by simp) c hc

theorem dropWhile_isDigit (ds rest : List Char) (hds : ∀ c ∈ ds, c.isDigit = true) :
    (ds ++ ' ' :: rest).dropWhile Char.isDigit = ' ' :: rest := by
  induction ds with
  | nil => rfl
  | cons d ds ih =>
    have hd : d.isDigit = true := hds d (List.mem_cons_self _ _)
    simp only [List.cons_append, List.dropWhile_cons, hd, if_true]
    exact ih fun c hc => hds c (List.mem_cons_of_mem _ hc)

theorem hex_part_eq (mem : Nat → Nat) (p : Nat) (len : Int) :
    hex_part mem p len = (List.range len.toNat).flatMap fun i =>
      [Nat.digitChar (rd mem (p + i) / 16), Nat.digitChar (rd mem (p + i) % 16), ' ']
        ++ (if i = 7 then [' '] else []) := by
  unfold hex_part
  congr 1
  funext i
  rw [fmt_02x_byte _ (rd_lt mem _)]
  rfl

theorem parse_line_head (mem : Nat → Nat) (p : Nat) (len offset : Int)
    (h0 : 0 ≤ len) (h16 : len ≤ 16) (hoff : 0 ≤ offset) (rest : List Char) :
    parse_line (line_head mem p len offset ++ rest)
      = (List.range len.toNat).map fun i => rd mem (p + i) := by
  obtain ⟨n, rfl⟩ : ∃ n : Nat, len = n := ⟨len.toNat, by omega⟩
  have hreg : line_head mem p n offset ++ rest
      = fmt_05d offset ++ ' ' :: ([' ', ' '] ++
          (hex_region (fun i => Nat.digitChar (rd mem (p + i) / 16))
            (fun i => Nat.digitChar (rd mem (p + i) % 16)) n ++ rest)) := by
    simp only [line_head, hex_part_eq, short_gap, fill_gap, hex_region,
      Int.toNat_ofNat, List.append_assoc, List.cons_append, List.nil_append]
  unfold parse_line
  rw [hreg, dropWhile_isDigit _ _ (fmt_05d_isDigit offset hoff)]
  simp only [List.drop_succ_cons, List.cons_append, List.nil_append, List.drop_zero]
  exact parse_hex_region _ _ (fun i => rd mem (p + i))
    (fun i rest => parse_column_hex _ (rd_lt mem _) rest) n (by omega) _

theorem isDigit_ne_newline (c : Char) (h : c.isDigit = true) : c ≠ '\n' := by
  rintro rfl
  exact absurd h (by decide)

theorem digitChar_ne_newline : ∀ d, d < 16 → Nat.digitChar d ≠ '\n' := by
  decide

set_option maxRecDepth 100000 in
theorem ascii_ne_newline : ∀ b, b < 256 →
    (if isprint b then Char.ofNat b else '.') ≠ '\n' := by
  decide

theorem line_body_no_newline (mem : Nat → Nat) (p : Nat) (len offset : Int)
    (hoff : 0 ≤ offset) :
    '\n' ∉ line_head mem p len offset ++ ascii_part mem p len := by
  intro hmem
  simp only [line_head, hex_part_eq, short_gap, fill_gap, ascii_part, List.mem_append,
    List.mem_flatMap, List.mem_map, List.mem_range, List.mem_cons] at hmem
  rcases hmem with ((((((h | h) | h) | h) | h) | h) | h)
  · exact isDigit_ne_newline _ (fmt_05d_isDigit offset hoff _ h) rfl
  · revert h; decide
  · obtain ⟨i, _, h⟩ := h
    rcases h with (h | h | h | h) | h
    · exact digitChar_ne_newline _ (Nat.div_lt_of_lt_mul (rd_lt mem _)) h.symm
    · exact digitChar_ne_newline _ (Nat.mod_lt _ (by decide)) h.symm
    · revert h; decide
    · simp at h
    · split at h <;> simp at h
  · split at h <;> simp at h
  · split at h
    · simp at h
    · simp at h
  · revert h; decide
  · obtain ⟨i, _, h⟩ := h
    exact ascii_ne_newline _ (rd_lt mem _) h

theorem split_lines_aux_line (body : List Char) (hb : '\n' ∉ body) :
    ∀ (acc rest : List Char),
      split_lines_aux (body ++ '\n' :: rest) acc
        = (acc.reverse ++ body) :: split_lines_aux rest [] := by
  induction body with
  | nil => intro acc rest; simp [split_lines_aux]
  | cons c cs ih =>
    intro acc rest
    have hc : c ≠ '\n' := fun h => hb (h ▸ List.mem_cons_self _ _)
    have hcs : '\n' ∉ cs := fun h => hb (List.mem_cons_of_mem _ h)
    rw [List.cons_append, split_lines_aux, if_neg hc, ih hcs]
    simp

theorem split_lines_flatMap {α : Type} (body : α → List Char) (xs : List α)
    (hb : ∀ x ∈ xs, '\n' ∉ body x) :
    split_lines (xs.flatMap fun x => body x ++ ['\n']) = xs.map body := by
  unfold split_lines
  induction xs with
  | nil => simp [split_lines_aux]
  | cons x xs ih =>
    simp only [List.flatMap_cons, List.append_assoc, List.singleton_append, List.map_cons]
    rw [split_lines_aux_line _ (hb x (List.mem_cons_self _ _)),
      ih fun y hy => hb y (List.mem_cons_of_mem _ hy)]
    simp

theorem chunks_flatMap {α : Type} (n : Nat) : ∀ (g : Nat → α),
    ((List.range ((n + 15) / 16)).flatMap fun i =>
        (List.range (min 16 ((n : Int) - 16 * i)).toNat).map fun j => g (16 * i + j))
      = (List.range n).map g := by
  induction n using Nat.strong_induction_on with
  | _ n ih =>
    intro g
    by_cases hn : n = 0
    · subst hn; simp
    · by_cases h16 : n ≤ 16
      · have hk : (n + 15) / 16 = 1 := by omega
        have hr : List.range 1 = [0] := rfl
        have hm : (min 16 ((n : Int) - 16 * (0 : Nat))).toNat = n := by
          rw [min_eq_right (by omega)]; omega
        rw [hk, hr]
        simp only [List.flatMap_cons, List.flatMap_nil, List.append_nil, hm]
        simp
      · have hk : (n + 15) / 16 = (n - 16 + 15) / 16 + 1 := by omega
        have hm : (min 16 ((n : Int) - 16 * (0 : Nat))).toNat = 16 := by
          rw [min_eq_left (by omega)]; rfl
        have hsplit : n = 16 + (n - 16) := by omega
        rw [hk, List.range_succ_eq_map, List.flatMap_cons, hm, List.flatMap_map]
        have hih := ih (n - 16) (by omega) (fun j => g (16 + j))
        conv_rhs => rw [hsplit, List.range_add, List.map_append, List.map_map]
        congr 1
        refine Eq.trans ?_ hih
        apply List.flatMap_congr
        intro i _
        have he : (min 16 ((n : Int) - 16 * ((i + 1 : Nat) : Int))).toNat
            = (min 16 (((n - 16 : Nat) : Int) - 16 * (i : Int))).toNat := by
          congr 2; push_cast; omega
        simp only [Nat.succ_eq_add_one, he]
        apply List.map_congr_left
        intro j _
        congr 1
        omega

theorem print_payload_eq (mem : Nat → Nat) (payload : Nat) (len : Int) :
    print_payload mem payload len
      = (List.range ((len.toNat + 15) / 16)).flatMap fun i =>
          print_hex_ascii_line mem (payload + 16 * i) (min 16 (len - 16 * i)) (16 * i) := by
  unfold print_payload
  rw [print_payload_calls_eq, List.flatMap_map]
  simp [chunk_call]

theorem parse_dump_print_payload (mem : Nat → Nat) (payload : Nat) (len : Int) :
    parse_dump (print_payload mem payload len)
      = (List.range len.toNat).map fun j => rd mem (payload + j) := by
  have hsplit : split_lines (print_payload mem payload len)
      = (List.range ((len.toNat + 15) / 16)).map fun i : Nat =>
          line_head mem (payload + 16 * i) (min 16 (len - 16 * i)) (16 * i)
            ++ ascii_part mem (payload + 16 * i) (min 16 (len - 16 * i)) := by
    rw [print_payload_eq]
    exact split_lines_flatMap _ _ fun i _ => line_body_no_newline mem _ _ _ (by omega)
  unfold parse_dump
  rw [hsplit, List.flatMap_map]
  have hline : ∀ i ∈ List.range ((len.toNat + 15) / 16),
      parse_line (line_head mem (payload + 16 * i) (min 16 (len - 16 * i)) (16 * i)
            ++ ascii_part mem (payload + 16 * i) (min 16 (len - 16 * i)))
        = (List.range (min 16 (((len.toNat : Nat) : Int) - 16 * i)).toNat).map
            fun j => rd mem (payload + (16 * i + j)) := by
    intro i hi
    have hi2 := List.mem_range.mp hi
    have hlen : ((len.toNat : Nat) : Int) = len := by omega
    rw [parse_line_head mem _ _ _ (by omega) (by omega) (by omega), hlen]
    apply List.map_congr_left
    intro j _
    rw [Nat.add_assoc]
  rw [List.flatMap_congr hline]
  exact chunks_flatMap len.toNat fun j => rd mem (payload + j)

/-! ## The claims -/

/-- C1: `print_payload` on `len` bytes makes exactly `ceil(len / 16)` calls of
`print_hex_ascii_line` (none when `len ≤ 0`); call `i` has offset `16 * i` and carries
the bytes `[16 * i, min (16 * i + 16) len)` of the input, so the text written is these
lines in order; every line but the last holds 16 bytes, and when `len` is a positive
multiple of 16 every line holds 16 bytes and has no padding. -/
theorem print_payload_chunks (mem : Nat → Nat) (payload : Nat) (len : Int) :
    print_payload_calls payload len
        = (List.range ((len.toNat + 15) / 16)).map
            (fun i : Nat => (⟨payload + 16 * i, min 16 (len - 16 * i), 16 * i⟩ : LineCall))
    ∧ print_payload mem payload len
        = (List.range ((len.toNat + 15) / 16)).flatMap
            (fun i : Nat =>
              print_hex_ascii_line mem (payload + 16 * i) (min 16 (len - 16 * i)) (16 * i))
    ∧ (len.toNat ≤ 16 * ((len.toNat + 15) / 16)
        ∧ 16 * ((len.toNat + 15) / 16) < len.toNat + 16)
    ∧ (len ≤ 0 → print_payload_calls payload len = [] ∧ print_payload mem payload len = [])
    ∧ (∀ i : Nat, i < (len.toNat + 15) / 16 →
        1 ≤ min 16 (len - 16 * i) ∧ min 16 (len - 16 * i) ≤ 16
        ∧ 16 * i + (min 16 (len - 16 * i)).toNat = min (16 * i + 16) len.toNat)
    ∧ (∀ i : Nat, i + 1 < (len.toNat + 15) / 16 → min 16 (len - 16 * i) = 16)
    ∧ (0 < len → len % 16 = 0 → ∀ i : Nat, i < (len.toNat + 15) / 16 →
        min 16 (len - 16 * i) = 16
        ∧ short_gap (min 16 (len - 16 * i)) = []
        ∧ fill_gap (min 16 (len - 16 * i)) = []) := by
  have hcalls := print_payload_calls_eq payload len
  refine ⟨?_, print_payload_eq mem payload len, ⟨by omega, by omega⟩, ?_, ?_, ?_, ?_⟩
  · rw [hcalls]
    simp [chunk_call]
  · intro h
    have h0 : (len.toNat + 15) / 16 = 0 := by omega
    rw [print_payload_eq, hcalls, h0]
    simp
  · intro i hi
    omega
  · intro i hi
    omega
  · intro hpos hmod i hi
    have h16 : min 16 (len - 16 * i) = 16 := by omega
    rw [h16]
    exact ⟨rfl, by decide, by decide⟩

/-- C2: round trip.  Reading back the hex columns of the lines written by
`print_payload`, in line order and column order, gives exactly the `len` bytes of the
input; and every byte is written as two lowercase hexadecimal digits, the high one
first, followed by one space. -/
theorem print_payload_round_trip (mem : Nat → Nat) (payload : Nat) (len : Int) :
    parse_dump (print_payload mem payload len)
        = (List.range len.toNat).map (fun j => rd mem (payload + j))
    ∧ (∀ j : Nat, ∃ h l : Char,
        fmt_02x (rd mem (payload + j)) ++ [' '] = [h, l, ' ']
        ∧ h ∈ lower_hex_digits ∧ l ∈ lower_hex_digits
        ∧ hexval h = some (rd mem (payload + j) / 16)
        ∧ hexval l = some (rd mem (payload + j) % 16)) := by
  refine ⟨parse_dump_print_payload mem payload len, fun j => ?_⟩
  have hb := rd_lt mem (payload + j)
  refine ⟨Nat.digitChar (rd mem (payload + j) / 16), Nat.digitChar (rd mem (payload + j) % 16),
    ?_, ?_, ?_, ?_, ?_⟩
  · rw [fmt_02x_byte _ hb]; rfl
  · exact digitChar_lower _ (by omega)
  · exact digitChar_lower _ (by omega)
  · exact hexval_digitChar _ (by omega)
  · exact hexval_digitChar _ (by omega)

theorem fmt_05d_length (v : Int) (h0 : 0 ≤ v) (h1 : v ≤ 99999) : (fmt_05d v).length = 5 := by
  have hneg : ¬ v < 0 := by omega
  have hlt : v.natAbs < 10 ^ 5 := by omega
  have hlen : (Nat.toDigits 10 v.natAbs).length ≤ 5 :=
    Nat.toDigitsCore_length 10 (by decide) _ _ 5 hlt (by decide)
  simp only [fmt_05d, hneg, if_false, zero_pad, List.length_append, List.length_replicate]
  omega

theorem hex_region_length (h l : Nat → Char) (n : Nat) (hn : n ≤ 16) :
    (hex_region h l n).length = 52 := by
  interval_cases n <;> simp [hex_region, List.range_succ, List.flatMap]

theorem line_head_eq (mem : Nat → Nat) (p : Nat) (n : Nat) (offset : Int) :
    line_head mem p n offset
      = fmt_05d offset ++ ([' ', ' ', ' '] ++
          hex_region (fun i => Nat.digitChar (rd mem (p + i) / 16))
            (fun i => Nat.digitChar (rd mem (p + i) % 16)) n) := by
  simp only [line_head, hex_part_eq, short_gap, fill_gap, hex_region,
    Int.toNat_ofNat, List.append_assoc, List.cons_append, List.nil_append]

theorem line_head_length (mem : Nat → Nat) (p : Nat) (len offset : Int)
    (h0 : 0 ≤ len) (h16 : len ≤ 16) (ho0 : 0 ≤ offset) (ho1 : offset ≤ 99999) :
    (line_head mem p len offset).length = 60 := by
  obtain ⟨n, rfl⟩ : ∃ n : Nat, len = n := ⟨len.toNat, by omega⟩
  rw [line_head_eq, List.length_append, List.length_append, fmt_05d_length _ ho0 ho1,
    hex_region_length _ _ _ (by omega)]
  rfl

/-- C3: for every chunk length `len` in 1..16 and every offset in 0..99999 the text
before the ASCII portion of a line is 60 characters wide whatever `len` is, so the ASCII
portion starts at character position 60 and the line is 60 + `len` characters and a
newline; for `len = 15` the 15 hex columns are followed by exactly one blank column
(three spaces) and then the three-space separator. -/
theorem ascii_column_aligned (mem : Nat → Nat) (payload : Nat) (len offset : Int)
    (hlen1 : 1 ≤ len) (hlen16 : len ≤ 16) (hoff0 : 0 ≤ offset) (hoff1 : offset ≤ 99999) :
    (line_head mem payload len offset).length = 60
    ∧ (print_hex_ascii_line mem payload len offset).take 60 = line_head mem payload len offset
    ∧ (print_hex_ascii_line mem payload len offset).drop 60
        = ascii_part mem payload len ++ ['\n']
    ∧ (ascii_part mem payload len).length = len.toNat
    ∧ ((print_hex_ascii_line mem payload len offset).length : Int) = 60 + len + 1
    ∧ (len = 15 →
        line_head mem payload len offset
          = fmt_05d offset ++ [' ', ' ', ' '] ++ hex_part mem payload 15
              ++ [' ', ' ', ' '] ++ [' ', ' ', ' ']) := by
  have hh := line_head_length mem payload len offset (by omega) hlen16 hoff0 hoff1
  have ha : (ascii_part mem payload len).length = len.toNat := by simp [ascii_part]
  refine ⟨hh, ?_, ?_, ha, ?_, ?_⟩
  · rw [print_hex_ascii_line, List.append_assoc, ← hh, List.take_left]
  · rw [print_hex_ascii_line, List.append_assoc, ← hh, List.drop_left]
  · simp only [print_hex_ascii_line, List.length_append, hh, ha, List.length_singleton]
    omega
  · rintro rfl
    have h1 : short_gap 15 = [] := by decide
    have h2 : fill_gap 15 = [' ', ' ', ' '] := by decide
    simp only [line_head, h1, h2, List.append_nil]

/-- Witness of C3: a 3-byte line printed at offset 16. -/
theorem ascii_column_aligned_witness :
    (line_head (frame [71, 69, 84]) 0 3 16).length = 60
    ∧ (print_hex_ascii_line (frame [71, 69, 84]) 0 3 16).take 60
        = line_head (frame [71, 69, 84]) 0 3 16
    ∧ (print_hex_ascii_line (frame [71, 69, 84]) 0 3 16).drop 60
        = ascii_part (frame [71, 69, 84]) 0 3 ++ ['\n']
    ∧ (ascii_part (frame [71, 69, 84]) 0 3).length = (3 : Int).toNat
    ∧ ((print_hex_ascii_line (frame [71, 69, 84]) 0 3 16).length : Int) = 60 + 3 + 1
    ∧ ((3 : Int) = 15 →
        line_head (frame [71, 69, 84]) 0 3 16
          = fmt_05d 16 ++ [' ', ' ', ' '] ++ hex_part (frame [71, 69, 84]) 0 15
              ++ [' ', ' ', ' '] ++ [' ', ' ', ' ']) :=
  ascii_column_aligned (frame [71, 69, 84]) 0 3 16 (by decide) (by decide) (by decide)
    (by decide)

set_option maxRecDepth 100000 in
theorem toNat_ofNat_byte : ∀ b, b < 256 → (Char.ofNat b).toNat = b := by
  decide

/-- C4: the ASCII portion of a line over `len` bytes has exactly `len` characters; its
`i`-th character is the `i`-th byte itself when the byte is printable (0x20..0x7e) and
a dot for every other value: control characters (0x00..0x1f, 0x7f) and bytes with the
high bit set (0x80..0xff). -/
theorem ascii_part_chars (mem : Nat → Nat) (payload : Nat) (len offset : Int) :
    print_hex_ascii_line mem payload len offset
        = line_head mem payload len offset ++ ascii_part mem payload len ++ ['\n']
    ∧ (ascii_part mem payload len).length = len.toNat
    ∧ (∀ i : Nat, i < len.toNat →
        (ascii_part mem payload len)[i]?
            = some (if 0x20 ≤ rd mem (payload + i) ∧ rd mem (payload + i) ≤ 0x7e
                    then Char.ofNat (rd mem (payload + i)) else '.')
        ∧ (0x20 ≤ rd mem (payload + i) → rd mem (payload + i) ≤ 0x7e →
            ∃ c : Char, (ascii_part mem payload len)[i]? = some c
              ∧ c.toNat = rd mem (payload + i))
        ∧ (rd mem (payload + i) ≤ 0x1f ∨ rd mem (payload + i) = 0x7f
              ∨ 0x80 ≤ rd mem (payload + i) →
            (ascii_part mem payload len)[i]? = some '.')) := by
  have hget : ∀ i : Nat, i < len.toNat →
      (ascii_part mem payload len)[i]?
        = some (if 0x20 ≤ rd mem (payload + i) ∧ rd mem (payload + i) ≤ 0x7e
                then Char.ofNat (rd mem (payload + i)) else '.') := by
    intro i hi
    simp [ascii_part, isprint, hi]
  have hchar := toNat_ofNat_byte
  refine ⟨rfl, by simp [ascii_part], fun i hi => ⟨hget i hi, ?_, ?_⟩⟩
  · intro h1 h2
    refine ⟨Char.ofNat (rd mem (payload + i)), ?_, hchar _ (rd_lt mem _)⟩
    rw [hget i hi, if_pos ⟨h1, h2⟩]
  · intro h
    rw [hget i hi, if_neg (by omega)]

set_option maxRecDepth 100000 in
theorem land_0f_byte : ∀ b, b < 256 → b &&& 0x0f = b % 16 := by
  decide

set_option maxRecDepth 100000 in
theorem th_off_byte : ∀ b, b < 256 → (b &&& 0xf0) >>> 4 = b >>> 4 ∧ b >>> 4 = b / 16 := by
  decide

theorem size_ip_eq (packet : Nat → Nat) : size_ip packet = rd packet 14 % 16 * 4 := by
  simp only [size_ip, IP_HL, SIZE_ETHERNET, land_0f_byte _ (rd_lt packet 14)]

theorem size_tcp_eq (packet : Nat → Nat) :
    size_tcp packet = rd packet (14 + size_ip packet + 12) / 16 * 4 := by
  simp only [size_tcp, TH_OFF, SIZE_ETHERNET]
  rw [(th_off_byte _ (rd_lt packet _)).1, (th_off_byte _ (rd_lt packet _)).2]

theorem ntohs_load_u16 (mem : Nat → Nat) (p : Nat) : ntohs (load_u16 mem p) = be16 mem p := by
  have h0 := rd_lt mem p
  have h1 := rd_lt mem (p + 1)
  simp only [ntohs, load_u16, be16]
  omega

/-- The IP header length check fails: the whole dissection. -/
theorem got_packet_invalid_ip (count : Int) (header : pcap_pkthdr) (packet : Nat → Nat)
    (h : size_ip packet < 20) :
    got_packet count header packet
      = { count := wrap_int (count + 1),
          out := [.printf "\nPacket number %d:\n" [.int count],
                  .printf "   * Invalid IP header length: %u bytes\n" [.int (size_ip packet)]],
          reads := [14] } := by
  simp [got_packet, h, SIZE_ETHERNET]

theorem got_packet_tcp_case (count : Int) (header : pcap_pkthdr) (packet : Nat → Nat)
    (h : ¬ size_ip packet < 20) (hp : rd packet 23 = 6) :
    got_packet count header packet
      = { count := wrap_int (count + 1),
          out := [.printf "\nPacket number %d:\n" [.int count],
                  .printf "       From: %s\n" [.str (inet_ntoa packet 26)],
                  .printf "         To: %s\n" [.str (inet_ntoa packet 30)],
                  .printf "   Protocol: TCP\n" []] ++ (got_packet_tcp header packet).1,
          reads := [14, 26, 27, 28, 29, 30, 31, 32, 33, 23, 23]
                    ++ (got_packet_tcp header packet).2 } := by
  simp [got_packet, h, hp, SIZE_ETHERNET, IPPROTO_TCP]

theorem got_packet_udp_case (count : Int) (header : pcap_pkthdr) (packet : Nat → Nat)
    (h : ¬ size_ip packet < 20) (hp : rd packet 23 = 17) :
    got_packet count header packet
      = { count := wrap_int (count + 1),
          out := [.printf "\nPacket number %d:\n" [.int count],
                  .printf "       From: %s\n" [.str (inet_ntoa packet 26)],
                  .printf "         To: %s\n" [.str (inet_ntoa packet 30)],
                  .printf "   Protocol: UDP\n" []] ++ (got_packet_udp packet).1,
          reads := [14, 26, 27, 28, 29, 30, 31, 32, 33, 23, 23]
                    ++ (got_packet_udp packet).2 } := by
  simp [got_packet, h, hp, SIZE_ETHERNET, IPPROTO_TCP, IPPROTO_UDP]

theorem got_packet_other_case (count : Int) (header : pcap_pkthdr) (packet : Nat → Nat)
    (h : ¬ size_ip packet < 20) (h6 : rd packet 23 ≠ 6) (h17 : rd packet 23 ≠ 17) :
    got_packet count header packet
      = { count := wrap_int (count + 1),
          out := [.printf "\nPacket number %d:\n" [.int count],
                  .printf "       From: %s\n" [.str (inet_ntoa packet 26)],
                  .printf "         To: %s\n" [.str (inet_ntoa packet 30)],
                  .printf (if rd packet 23 = 1 then "   Protocol: ICMP\n"
                           else if rd packet 23 = 0 then "   Protocol: IP\n"
                           else "   Protocol: unknown\n") []],
          reads := [14, 26, 27, 28, 29, 30, 31, 32, 33, 23] } := by
  by_cases h1 : rd packet 23 = 1
  · simp [got_packet, h, h1, SIZE_ETHERNET, IPPROTO_TCP, IPPROTO_UDP, IPPROTO_ICMP]
  · by_cases h0 : rd packet 23 = 0
    · simp [got_packet, h, h0, SIZE_ETHERNET, IPPROTO_TCP, IPPROTO_UDP, IPPROTO_ICMP,
        IPPROTO_IP]
    · simp [got_packet, h, h1, h0, h6, h17, SIZE_ETHERNET, IPPROTO_TCP, IPPROTO_UDP,
        IPPROTO_ICMP, IPPROTO_IP]

theorem malformed_tcp_branch (header : pcap_pkthdr) (packet : Nat → Nat) :
    ((got_packet_tcp header packet).1.any (is_printf fmt_invalid_ip) = false)
    ∧ ((got_packet_tcp header packet).1.any (is_printf fmt_invalid_tcp) = true
        ↔ size_tcp packet < 20) := by
  unfold got_packet_tcp
  by_cases h : size_tcp packet < 20
  · simp [h, is_printf, fmt_invalid_ip, fmt_invalid_tcp]
  · by_cases hp : size_payload packet > 0
    · simp [h, hp, is_printf, fmt_invalid_ip, fmt_invalid_tcp]
    · simp [h, hp, is_printf, fmt_invalid_ip, fmt_invalid_tcp]

theorem invalid_ip_reported_iff (count : Int) (header : pcap_pkthdr) (packet : Nat → Nat) :
    invalid_ip_reported (got_packet count header packet) = true ↔ size_ip packet < 20 := by
  by_cases h : size_ip packet < 20
  · rw [got_packet_invalid_ip count header packet h]
    simp [invalid_ip_reported, is_printf, fmt_invalid_ip, h]
  · by_cases h6 : rd packet 23 = 6
    · rw [got_packet_tcp_case count header packet h h6]
      simp only [invalid_ip_reported, List.any_append, (malformed_tcp_branch header packet).1]
      simp [is_printf, fmt_invalid_ip, h]
    · by_cases h17 : rd packet 23 = 17
      · rw [got_packet_udp_case count header packet h h17]
        simp [invalid_ip_reported, is_printf, fmt_invalid_ip, h, got_packet_udp]
      · rw [got_packet_other_case count header packet h h6 h17]
        split_ifs <;> simp [invalid_ip_reported, is_printf, fmt_invalid_ip, h]

theorem invalid_tcp_reported_iff (count : Int) (header : pcap_pkthdr) (packet : Nat → Nat) :
    invalid_tcp_reported (got_packet count header packet) = true
      ↔ ¬ size_ip packet < 20 ∧ rd packet 23 = 6 ∧ size_tcp packet < 20 := by
  by_cases h : size_ip packet < 20
  · rw [got_packet_invalid_ip count header packet h]
    simp [invalid_tcp_reported, is_printf, fmt_invalid_tcp, h]
  · by_cases h6 : rd packet 23 = 6
    · rw [got_packet_tcp_case count header packet h h6]
      have hb := (malformed_tcp_branch header packet).2
      by_cases ht : size_tcp packet < 20
      · simp only [invalid_tcp_reported, List.any_append, hb.mpr ht]
        simp [h, h6, ht]
      · have hf : (got_packet_tcp header packet).1.any (is_printf fmt_invalid_tcp) = false := by
          cases hc : (got_packet_tcp header packet).1.any (is_printf fmt_invalid_tcp)
          · rfl
          · exact absurd (hb.mp hc) ht
        simp only [invalid_tcp_reported, List.any_append, hf]
        simp [is_printf, fmt_invalid_tcp, h, h6, ht]
    · by_cases h17 : rd packet 23 = 17
      · rw [got_packet_udp_case count header packet h h17]
        simp [invalid_tcp_reported, is_printf, fmt_invalid_tcp, h, h6, got_packet_udp]
      · rw [got_packet_other_case count header packet h h6 h17]
        split_ifs <;> simp [invalid_tcp_reported, is_printf, fmt_invalid_tcp, h, h6]

theorem reads_head (count : Int) (header : pcap_pkthdr) (packet : Nat → Nat) :
    (got_packet count header packet).reads.head? = some 14 := by
  by_cases h : size_ip packet < 20
  · rw [got_packet_invalid_ip count header packet h]; rfl
  · by_cases h6 : rd packet 23 = 6
    · rw [got_packet_tcp_case count header packet h h6]; rfl
    · by_cases h17 : rd packet 23 = 17
      · rw [got_packet_udp_case count header packet h h17]; rfl
      · rw [got_packet_other_case count header packet h h6 h17]; rfl

/-- Counterexample to C5 as stated: the frame `short_frame` with `caplen = 10` is
dissected as an ICMP packet.  No malformed frame is reported, and the bytes at the
offsets 14, 26..33 and 23 are read, all of them beyond the captured length. -/
theorem short_frame_not_rejected :
    malformed_reported (got_packet 1 ⟨10, 34⟩ (frame short_frame)) = false
    ∧ (got_packet 1 ⟨10, 34⟩ (frame short_frame)).reads
        = [14, 26, 27, 28, 29, 30, 31, 32, 33, 23]
    ∧ (got_packet 1 ⟨10, 34⟩ (frame short_frame)).out
        = [.printf "\nPacket number %d:\n" [.int 1],
           .printf "       From: %s\n" [.str "10.0.0.1"],
           .printf "         To: %s\n" [.str "10.0.0.2"],
           .printf "   Protocol: ICMP\n" []]
    ∧ ¬ (∀ (count : Int) (header : pcap_pkthdr) (packet : Nat → Nat), header.caplen < 14 →
          malformed_reported (got_packet count header packet) = true
          ∧ ∀ i ∈ (got_packet count header packet).reads, i < 14) := by
  refine ⟨by decide, by decide, by decide, ?_⟩
  intro hall
  have h := (hall 1 ⟨10, 34⟩ (frame short_frame) (by decide)).1
  revert h
  decide

/-- C5, amended: `got_packet` never looks at `caplen` before it dissects.  For a frame
with `caplen < 14` it still reads the byte at offset 14 first, and it reports a malformed
frame exactly when one of its two header-length checks fails: `size_ip < 20`, or the
protocol is 6 and `size_tcp < 20`. -/
theorem short_frame_dissected (count : Int) (header : pcap_pkthdr) (packet : Nat → Nat)
    (_hcap : header.caplen < 14) :
    (got_packet count header packet).reads.head? = some 14
    ∧ (malformed_reported (got_packet count header packet) = true
        ↔ (rd packet 14 &&& 0x0f) * 4 < 20
          ∨ ((rd packet 14 &&& 0x0f) * 4 ≥ 20 ∧ rd packet 23 = 6 ∧ size_tcp packet < 20)) := by
  refine ⟨reads_head count header packet, ?_⟩
  have hs : (rd packet 14 &&& 0x0f) * 4 = size_ip packet := rfl
  rw [hs]
  simp only [malformed_reported, Bool.or_eq_true, invalid_ip_reported_iff,
    invalid_tcp_reported_iff]
  omega

/-- Witness of C5 amended: the frame `short_frame` with `caplen = 10`. -/
theorem short_frame_dissected_witness :
    (got_packet 1 ⟨10, 34⟩ (frame short_frame)).reads.head? = some 14
    ∧ (malformed_reported (got_packet 1 ⟨10, 34⟩ (frame short_frame)) = true
        ↔ (rd (frame short_frame) 14 &&& 0x0f) * 4 < 20
          ∨ ((rd (frame short_frame) 14 &&& 0x0f) * 4 ≥ 20 ∧ rd (frame short_frame) 23 = 6
              ∧ size_tcp (frame short_frame) < 20)) :=
  short_frame_dissected 1 ⟨10, 34⟩ (frame short_frame) (by decide)

/-- C6: `got_packet` reports an invalid IP header length if and only if
`(byte[14] & 0x0F) * 4 < 20`, that is if and only if the low nibble of byte 14 is 0..4;
it then stops after that message (no address, protocol name, transport field or
payload line), reading only byte 14; for a low nibble 5..15 the message is not
printed. -/
theorem invalid_ip_header_length (count : Int) (header : pcap_pkthdr) (packet : Nat → Nat) :
    (invalid_ip_reported (got_packet count header packet) = true
        ↔ (rd packet 14 &&& 0x0F) * 4 < 20)
    ∧ ((rd packet 14 &&& 0x0F) * 4 < 20 ↔ rd packet 14 % 16 ≤ 4)
    ∧ ((rd packet 14 &&& 0x0F) * 4 < 20 →
        (got_packet count header packet).out
            = [.printf "\nPacket number %d:\n" [.int count],
               .printf "   * Invalid IP header length: %u bytes\n"
                 [.int ((rd packet 14 % 16 * 4 : Nat) : Int)]]
        ∧ (got_packet count header packet).reads = [14]
        ∧ dump_text (got_packet count header packet) = [])
    ∧ (5 ≤ rd packet 14 % 16 →
        invalid_ip_reported (got_packet count header packet) = false) := by
  have hs : (rd packet 14 &&& 0x0F) * 4 = size_ip packet := rfl
  have he := size_ip_eq packet
  have hiff := invalid_ip_reported_iff count header packet
  rw [hs]
  refine ⟨hiff, by omega, ?_, ?_⟩
  · intro h
    rw [got_packet_invalid_ip count header packet h, he]
    exact ⟨rfl, rfl, rfl⟩
  · intro h
    cases hc : invalid_ip_reported (got_packet count header packet)
    · rfl
    · have := hiff.mp hc
      omega

/-- C7: for a frame with a valid IP header length and protocol 6, the TCP header length
is `((byte at TCP offset 12) >> 4) * 4`; `got_packet` reports an invalid TCP header
length if and only if that value is below 20, and then stops after that message: no
port, sequence or acknowledgement number and no payload line is written. -/
theorem invalid_tcp_header_length (count : Int) (header : pcap_pkthdr) (packet : Nat → Nat)
    (hip : 20 ≤ size_ip packet) (hp : rd packet 23 = 6) :
    size_tcp packet = (rd packet (14 + size_ip packet + 12) >>> 4) * 4
    ∧ (invalid_tcp_reported (got_packet count header packet) = true
        ↔ (rd packet (14 + size_ip packet + 12) >>> 4) * 4 < 20)
    ∧ ((rd packet (14 + size_ip packet + 12) >>> 4) * 4 < 20 →
        (got_packet count header packet).out
            = [.printf "\nPacket number %d:\n" [.int count],
               .printf "       From: %s\n" [.str (inet_ntoa packet 26)],
               .printf "         To: %s\n" [.str (inet_ntoa packet 30)],
               .printf "   Protocol: TCP\n" [],
               .printf "   * Invalid TCP header length: %u bytes\n"
                 [.int (((rd packet (14 + size_ip packet + 12) >>> 4) * 4 : Nat) : Int)]]
        ∧ dump_text (got_packet count header packet) = []) := by
  have hs : size_tcp packet = (rd packet (14 + size_ip packet + 12) >>> 4) * 4 := by
    rw [size_tcp_eq, (th_off_byte _ (rd_lt packet _)).2]
  have hn : ¬ size_ip packet < 20 := by omega
  refine ⟨hs, ?_, ?_⟩
  · rw [invalid_tcp_reported_iff, ← hs]
    exact ⟨fun h => h.2.2, fun h => ⟨hn, hp, h⟩⟩
  · rw [← hs]
    intro ht
    rw [got_packet_tcp_case count header packet hn hp]
    simp [got_packet_tcp, ht, dump_text]

/-- Witness of C7: the frame `bad_tcp_frame`, whose TCP data offset is 4. -/
theorem invalid_tcp_header_length_witness :
    (20 ≤ size_ip (frame bad_tcp_frame) ∧ rd (frame bad_tcp_frame) 23 = 6)
    ∧ size_tcp (frame bad_tcp_frame)
        = (rd (frame bad_tcp_frame) (14 + size_ip (frame bad_tcp_frame) + 12) >>> 4) * 4
    ∧ (invalid_tcp_reported (got_packet 1 ⟨54, 54⟩ (frame bad_tcp_frame)) = true
        ↔ (rd (frame bad_tcp_frame) (14 + size_ip (frame bad_tcp_frame) + 12) >>> 4) * 4 < 20)
    ∧ ((rd (frame bad_tcp_frame) (14 + size_ip (frame bad_tcp_frame) + 12) >>> 4) * 4 < 20 →
        (got_packet 1 ⟨54, 54⟩ (frame bad_tcp_frame)).out
            = [.printf "\nPacket number %d:\n" [.int 1],
               .printf "       From: %s\n" [.str (inet_ntoa (frame bad_tcp_frame) 26)],
               .printf "         To: %s\n" [.str (inet_ntoa (frame bad_tcp_frame) 30)],
               .printf "   Protocol: TCP\n" [],
               .printf "   * Invalid TCP header length: %u bytes\n"
                 [.int (((rd (frame bad_tcp_frame) (14 + size_ip (frame bad_tcp_frame) + 12)
                    >>> 4) * 4 : Nat) : Int)]]
        ∧ dump_text (got_packet 1 ⟨54, 54⟩ (frame bad_tcp_frame)) = []) :=
  ⟨by decide, invalid_tcp_header_length 1 ⟨54, 54⟩ (frame bad_tcp_frame) (by decide) (by decide)⟩

theorem size_payload_eq (packet : Nat → Nat) :
    size_payload packet = (be16 packet 16 : Int) - (size_ip packet + size_tcp packet) := by
  simp only [size_payload, SIZE_ETHERNET, ntohs_load_u16]

theorem print_payload_nonpos (mem : Nat → Nat) (payload : Nat) (len : Int) (h : len ≤ 0) :
    print_payload mem payload len = [] := by
  simp [print_payload, print_payload_calls, h]

/-- C8: for a frame with protocol 6, `size_ip ≥ 20` and `size_tcp ≥ 20`, `got_packet`
reports TCP, prints as source and destination port the big-endian values of TCP bytes
0-1 and 2-3, and hands to the hex dump the `total_length - (size_ip + size_tcp)` bytes
at frame offset `14 + size_ip + size_tcp` when that number is positive, where
`total_length` is the big-endian value of IP bytes 2-3; when it is not positive the
dissection still succeeds and no hex-dump line is written. -/
theorem tcp_dissection (count : Int) (header : pcap_pkthdr) (packet : Nat → Nat)
    (hp : rd packet 23 = 6) (hip : 20 ≤ size_ip packet) (htcp : 20 ≤ size_tcp packet) :
    (got_packet count header packet).out
        = [.printf "\nPacket number %d:\n" [.int count],
           .printf "       From: %s\n" [.str (inet_ntoa packet 26)],
           .printf "         To: %s\n" [.str (inet_ntoa packet 30)],
           .printf "   Protocol: TCP\n" [],
           .printf "   Src port: %d\n" [.int (be16 packet (14 + size_ip packet))],
           .printf "   Dst port: %d\n" [.int (be16 packet (14 + size_ip packet + 2))],
           .printf "Packet capture length: %d\n" [.int (wrap_int header.caplen)],
           .printf "Packet total length %d\n" [.int (wrap_int header.len)],
           .printf "Sequence number: %u\n" [.int (load_u32 packet (14 + size_ip packet + 4))],
           .printf "Acknowledgement number: %u\n"
             [.int (load_u32 packet (14 + size_ip packet + 8))]]
          ++ (if 0 < (be16 packet 16 : Int) - (size_ip packet + size_tcp packet) then
                [.printf "   Payload (%d bytes):\n"
                   [.int ((be16 packet 16 : Int) - (size_ip packet + size_tcp packet))],
                 .print_payload
                   (print_payload packet (14 + size_ip packet + size_tcp packet)
                     ((be16 packet 16 : Int) - (size_ip packet + size_tcp packet)))]
              else [])
    ∧ dump_text (got_packet count header packet)
        = print_payload packet (14 + size_ip packet + size_tcp packet)
            (max 0 ((be16 packet 16 : Int) - (size_ip packet + size_tcp packet)))
    ∧ parse_dump (dump_text (got_packet count header packet))
        = (List.range (max 0 ((be16 packet 16 : Int)
              - (size_ip packet + size_tcp packet))).toNat).map
            (fun j => rd packet (14 + size_ip packet + size_tcp packet + j))
    ∧ malformed_reported (got_packet count header packet) = false
    ∧ ((be16 packet 16 : Int) - (size_ip packet + size_tcp packet) ≤ 0 →
        dump_text (got_packet count header packet) = []) := by
  have hn : ¬ size_ip packet < 20 := by omega
  have hnt : ¬ size_tcp packet < 20 := by omega
  have hpay := size_payload_eq packet
  have hout : (got_packet count header packet).out = _ :=
    congrArg Dissection.out (got_packet_tcp_case count header packet hn hp)
  have hdump : dump_text (got_packet count header packet)
      = print_payload packet (14 + size_ip packet + size_tcp packet)
          (max 0 ((be16 packet 16 : Int) - (size_ip packet + size_tcp packet))) := by
    rw [dump_text, hout, ← hpay]
    by_cases hpos : size_payload packet > 0
    · rw [max_eq_right (by omega)]
      simp [got_packet_tcp, hnt, hpos, SIZE_ETHERNET]
    · rw [max_eq_left (by omega), print_payload_nonpos _ _ _ (le_refl 0)]
      simp [got_packet_tcp, hnt, hpos]
  refine ⟨?_, hdump, ?_, ?_, ?_⟩
  · rw [hout, ← hpay]
    by_cases hpos : size_payload packet > 0
    · have hpos2 : 0 < size_payload packet := hpos
      simp [got_packet_tcp, hnt, hpos, hpos2, SIZE_ETHERNET, ntohs_load_u16]
    · have hpos2 : ¬ 0 < size_payload packet := hpos
      simp [got_packet_tcp, hnt, hpos, hpos2, SIZE_ETHERNET, ntohs_load_u16]
  · rw [hdump, parse_dump_print_payload]
  · have h1 : invalid_ip_reported (got_packet count header packet) = false := by
      cases hc : invalid_ip_reported (got_packet count header packet)
      · rfl
      · exact absurd ((invalid_ip_reported_iff count header packet).mp hc) hn
    have h2 : invalid_tcp_reported (got_packet count header packet) = false := by
      cases hc : invalid_tcp_reported (got_packet count header packet)
      · rfl
      · exact absurd ((invalid_tcp_reported_iff count header packet).mp hc).2.2 hnt
    simp [malformed_reported, h1, h2]
  · intro hle
    rw [hdump, max_eq_left hle, print_payload_nonpos _ _ _ (le_refl 0)]

/-- Witness of C8: the synthetic frame of the specification (`size_ip = 20`,
`size_tcp = 20`, total length 40): the ports are 8080 and 80, the payload length is 0
and no hex-dump line is written. -/
theorem tcp_dissection_witness :
    (rd (frame tcp_frame) 23 = 6 ∧ size_ip (frame tcp_frame) = 20
      ∧ size_tcp (frame tcp_frame) = 20 ∧ be16 (frame tcp_frame) 16 = 40
      ∧ be16 (frame tcp_frame) (14 + size_ip (frame tcp_frame)) = 8080
      ∧ be16 (frame tcp_frame) (14 + size_ip (frame tcp_frame) + 2) = 80)
    ∧ dump_text (got_packet 1 ⟨54, 54⟩ (frame tcp_frame))
        = print_payload (frame tcp_frame)
            (14 + size_ip (frame tcp_frame) + size_tcp (frame tcp_frame))
            (max 0 ((be16 (frame tcp_frame) 16 : Int)
              - (size_ip (frame tcp_frame) + size_tcp (frame tcp_frame))))
    ∧ malformed_reported (got_packet 1 ⟨54, 54⟩ (frame tcp_frame)) = false
    ∧ dump_text (got_packet 1 ⟨54, 54⟩ (frame tcp_frame)) = [] :=
  have h := tcp_dissection 1 ⟨54, 54⟩ (frame tcp_frame) (by decide) (by decide) (by decide)
  ⟨by decide, h.2.1, h.2.2.2.1, h.2.2.2.2 (by decide)⟩

/-- C9 fails on the code: the UDP branch prints `udp_header->len / 256` without
`ntohs`.  On the frame `udp_frame`, whose datagram length field is 300 (bytes 01 2c),
the length printed is 44; in general it is the second byte of the field alone. -/
theorem udp_length_printed :
    be16 (frame udp_frame) 38 = 300
    ∧ printed "**\t\tUDP Datagram Length : %u\n" (got_packet 1 ⟨42, 42⟩ (frame udp_frame))
        = [[.int 44]]
    ∧ (∀ (count : Int) (header : pcap_pkthdr) (packet : Nat → Nat),
        20 ≤ size_ip packet → rd packet 23 = 17 →
        printed "**\t\tUDP Datagram Length : %u\n" (got_packet count header packet)
          = [[.int (rd packet (14 + size_ip packet + 5))]]) := by
  refine ⟨by decide, by decide, ?_⟩
  intro count header packet hip hp
  have hn : ¬ size_ip packet < 20 := by omega
  have h0 := rd_lt packet (14 + size_ip packet + 4)
  have hdiv : (rd packet (14 + size_ip packet + 4) + 256 * rd packet (14 + size_ip packet + 5))
      / 256 = rd packet (14 + size_ip packet + 5) := by omega
  rw [got_packet_udp_case count header packet hn hp]
  simp [printed, got_packet_udp, SIZE_ETHERNET, load_u16]
  exact_mod_cast hdiv

/-- C10 fails on the code: the UDP branch prints `sport` and `dport` as loaded, without
`ntohs`.  On the frame `udp_frame`, whose ports are 53 and 8080 (bytes 00 35 and 1f 90),
the ports printed are 13568 and 36895; in general they are the byte-swapped values. -/
theorem udp_ports_printed :
    be16 (frame udp_frame) 34 = 53 ∧ be16 (frame udp_frame) 36 = 8080
    ∧ printed "**\t\tSource Port : %u\n**\t\tDestination Port : %u\n"
          (got_packet 1 ⟨42, 42⟩ (frame udp_frame))
        = [[.int 13568, .int 36895]]
    ∧ (∀ (count : Int) (header : pcap_pkthdr) (packet : Nat → Nat),
        20 ≤ size_ip packet → rd packet 23 = 17 →
        printed "**\t\tSource Port : %u\n**\t\tDestination Port : %u\n"
            (got_packet count header packet)
          = [[.int (rd packet (14 + size_ip packet)
                      + 256 * rd packet (14 + size_ip packet + 1) : Nat),
              .int (rd packet (14 + size_ip packet + 2)
                      + 256 * rd packet (14 + size_ip packet + 3) : Nat)]]) := by
  refine ⟨by decide, by decide, by decide, ?_⟩
  intro count header packet hip hp
  have hn : ¬ size_ip packet < 20 := by omega
  rw [got_packet_udp_case count header packet hn hp]
  simp [printed, got_packet_udp, SIZE_ETHERNET, load_u16, Nat.add_assoc]

theorem got_packet_tcp_valid (header : pcap_pkthdr) (packet : Nat → Nat)
    (h : ¬ size_tcp packet < 20) :
    got_packet_tcp header packet
      = ([.printf "   Src port: %d\n" [.int (be16 packet (14 + size_ip packet))],
          .printf "   Dst port: %d\n" [.int (be16 packet (14 + size_ip packet + 2))],
          .printf "Packet capture length: %d\n" [.int (wrap_int header.caplen)],
          .printf "Packet total length %d\n" [.int (wrap_int header.len)],
          .printf "Sequence number: %u\n" [.int (load_u32 packet (14 + size_ip packet + 4))],
          .printf "Acknowledgement number: %u\n"
            [.int (load_u32 packet (14 + size_ip packet + 8))]]
          ++ (if size_payload packet > 0 then
                [.printf "   Payload (%d bytes):\n" [.int (size_payload packet)],
                 .print_payload
                   (print_payload packet (14 + size_ip packet + size_tcp packet)
                     (size_payload packet))]
              else []),
         [14 + size_ip packet + 12, 14 + size_ip packet, 14 + size_ip packet + 1,
          14 + size_ip packet + 2, 14 + size_ip packet + 3, 14 + size_ip packet + 4,
          14 + size_ip packet + 5, 14 + size_ip packet + 6, 14 + size_ip packet + 7,
          14 + size_ip packet + 8, 14 + size_ip packet + 9, 14 + size_ip packet + 10,
          14 + size_ip packet + 11, 16, 17]
          ++ (if size_payload packet > 0 then
                print_payload_reads (14 + size_ip packet + size_tcp packet)
                  (size_payload packet)
              else [])) := by
  simp only [got_packet_tcp, h, if_false, SIZE_ETHERNET, ntohs_load_u16]

theorem got_packet_tcp_invalid (header : pcap_pkthdr) (packet : Nat → Nat)
    (h : size_tcp packet < 20) :
    got_packet_tcp header packet
      = ([.printf "   * Invalid TCP header length: %u bytes\n" [.int (size_tcp packet)]],
         [14 + size_ip packet + 12]) := by
  simp only [got_packet_tcp, h, if_true, SIZE_ETHERNET]

/-- C11 fails on the code: the TCP branch prints `tcp->th_seq` and `tcp->th_ack` as
loaded, without `ntohl`.  On the frame `tcp_frame`, whose sequence and acknowledgement
numbers are 1 and 2 (bytes 00 00 00 01 and 00 00 00 02), the numbers printed are
16777216 and 33554432; in general they are the byte-swapped values. -/
theorem tcp_seq_ack_printed :
    be32 (frame tcp_frame) 38 = 1 ∧ be32 (frame tcp_frame) 42 = 2
    ∧ printed "Sequence number: %u\n" (got_packet 1 ⟨54, 54⟩ (frame tcp_frame))
        = [[.int 16777216]]
    ∧ printed "Acknowledgement number: %u\n" (got_packet 1 ⟨54, 54⟩ (frame tcp_frame))
        = [[.int 33554432]]
    ∧ (∀ (count : Int) (header : pcap_pkthdr) (packet : Nat → Nat),
        20 ≤ size_ip packet → rd packet 23 = 6 → 20 ≤ size_tcp packet →
        printed "Sequence number: %u\n" (got_packet count header packet)
            = [[.int (rd packet (14 + size_ip packet + 4)
                        + 256 * rd packet (14 + size_ip packet + 5)
                        + 65536 * rd packet (14 + size_ip packet + 6)
                        + 16777216 * rd packet (14 + size_ip packet + 7) : Nat)]]
        ∧ printed "Acknowledgement number: %u\n" (got_packet count header packet)
            = [[.int (rd packet (14 + size_ip packet + 8)
                        + 256 * rd packet (14 + size_ip packet + 9)
                        + 65536 * rd packet (14 + size_ip packet + 10)
                        + 16777216 * rd packet (14 + size_ip packet + 11) : Nat)]]) := by
  refine ⟨by decide, by decide, by decide, by decide, ?_⟩
  intro count header packet hip hp htcp
  have hn : ¬ size_ip packet < 20 := by omega
  have hnt : ¬ size_tcp packet < 20 := by omega
  rw [got_packet_tcp_case count header packet hn hp, got_packet_tcp_valid header packet hnt]
  by_cases hpos : size_payload packet > 0
  · simp [printed, hpos, load_u32, Nat.add_assoc]
  · simp [printed, hpos, load_u32, Nat.add_assoc]

theorem inet_ntoa_congr (m m' : Nat → Nat) (p : Nat)
    (h : ∀ i, i < 4 → rd m' (p + i) = rd m (p + i)) : inet_ntoa m' p = inet_ntoa m p := by
  unfold inet_ntoa
  congr 1
  apply List.map_congr_left
  intro i hi
  rw [h i (List.mem_range.mp hi)]

theorem size_ip_congr (m m' : Nat → Nat) (h : rd m' 14 = rd m 14) : size_ip m' = size_ip m := by
  simp only [size_ip, IP_HL, SIZE_ETHERNET, h]

/-- C12: for a frame with a valid IP header length whose protocol is neither 6 nor 17,
`got_packet` prints the packet number, the two addresses and exactly one protocol name
(`ICMP` for 1, `IP` for 0, `unknown` otherwise) and returns: it reads only the bytes
14, 23 and 26..33 of the IP header, no byte of a transport header, calls
`print_payload` not at all, and the whole result is the same whatever bytes follow
the IP header. -/
theorem other_protocol_terminates (count : Int) (header : pcap_pkthdr) (packet : Nat → Nat)
    (hip : 20 ≤ size_ip packet) (h6 : rd packet 23 ≠ 6) (h17 : rd packet 23 ≠ 17) :
    (got_packet count header packet).out
        = [.printf "\nPacket number %d:\n" [.int count],
           .printf "       From: %s\n" [.str (inet_ntoa packet 26)],
           .printf "         To: %s\n" [.str (inet_ntoa packet 30)],
           .printf (if rd packet 23 = 1 then "   Protocol: ICMP\n"
                    else if rd packet 23 = 0 then "   Protocol: IP\n"
                    else "   Protocol: unknown\n") []]
    ∧ (got_packet count header packet).reads = [14, 26, 27, 28, 29, 30, 31, 32, 33, 23]
    ∧ (∀ i ∈ (got_packet count header packet).reads, i < 14 + size_ip packet)
    ∧ print_payload_called (got_packet count header packet) = false
    ∧ dump_text (got_packet count header packet) = []
    ∧ (∀ packet' : Nat → Nat,
        (∀ i, i < 14 + size_ip packet → rd packet' i = rd packet i) →
        got_packet count header packet' = got_packet count header packet) := by
  have hn : ¬ size_ip packet < 20 := by omega
  have hg := got_packet_other_case count header packet hn h6 h17
  refine ⟨by rw [hg], by rw [hg], ?_, ?_, ?_, ?_⟩
  · rw [hg]
    intro i hi
    simp only [List.mem_cons, List.mem_singleton, List.not_mem_nil, or_false] at hi
    omega
  · rw [hg]
    simp [print_payload_called]
  · rw [hg]
    simp [dump_text]
  · intro packet' hagree
    have hs : size_ip packet' = size_ip packet := size_ip_congr _ _ (hagree 14 (by omega))
    have hp : rd packet' 23 = rd packet 23 := hagree 23 (by omega)
    have hsrc : inet_ntoa packet' 26 = inet_ntoa packet 26 :=
      inet_ntoa_congr _ _ _ fun i hi => hagree (26 + i) (by omega)
    have hdst : inet_ntoa packet' 30 = inet_ntoa packet 30 :=
      inet_ntoa_congr _ _ _ fun i hi => hagree (30 + i) (by omega)
    rw [hg, got_packet_other_case count header packet' (by omega) (by omega) (by omega),
      hp, hsrc, hdst]

/-- Witness of C12: the frame `icmp_frame`. -/
theorem other_protocol_terminates_witness :
    (20 ≤ size_ip (frame icmp_frame) ∧ rd (frame icmp_frame) 23 = 1)
    ∧ (got_packet 1 ⟨54, 54⟩ (frame icmp_frame)).reads
        = [14, 26, 27, 28, 29, 30, 31, 32, 33, 23]
    ∧ print_payload_called (got_packet 1 ⟨54, 54⟩ (frame icmp_frame)) = false
    ∧ dump_text (got_packet 1 ⟨54, 54⟩ (frame icmp_frame)) = [] :=
  have h := other_protocol_terminates 1 ⟨54, 54⟩ (frame icmp_frame) (by decide) (by decide)
    (by decide)
  ⟨by decide, h.2.1, h.2.2.2.1, h.2.2.2.2.1⟩

theorem got_packet_count (count : Int) (header : pcap_pkthdr) (packet : Nat → Nat) :
    (got_packet count header packet).count = wrap_int (count + 1) := by
  by_cases h : size_ip packet < 20
  · rw [got_packet_invalid_ip count header packet h]
  · by_cases h6 : rd packet 23 = 6
    · rw [got_packet_tcp_case count header packet h h6]
    · by_cases h17 : rd packet 23 = 17
      · rw [got_packet_udp_case count header packet h h17]
      · rw [got_packet_other_case count header packet h h6 h17]

theorem printed_tcp_branch (header : pcap_pkthdr) (packet : Nat → Nat) :
    (got_packet_tcp header packet).1.filterMap (fun o =>
        match o with
        | .printf f args => if f = fmt_packet_number then some args else none
        | .print_payload _ => none) = [] := by
  by_cases ht : size_tcp packet < 20
  · rw [got_packet_tcp_invalid header packet ht]
    simp [fmt_packet_number]
  · rw [got_packet_tcp_valid header packet ht]
    by_cases hpos : size_payload packet > 0
    · simp [hpos, fmt_packet_number]
    · simp [hpos, fmt_packet_number]

theorem got_packet_ordinal (count : Int) (header : pcap_pkthdr) (packet : Nat → Nat) :
    printed fmt_packet_number (got_packet count header packet) = [[.int count]] := by
  unfold printed
  by_cases h : size_ip packet < 20
  · rw [got_packet_invalid_ip count header packet h]
    simp [fmt_packet_number]
  · by_cases h6 : rd packet 23 = 6
    · rw [got_packet_tcp_case count header packet h h6]
      simp only [List.filterMap_append, printed_tcp_branch]
      simp [fmt_packet_number]
    · by_cases h17 : rd packet 23 = 17
      · rw [got_packet_udp_case count header packet h h17]
        simp [fmt_packet_number, got_packet_udp]
      · rw [got_packet_other_case count header packet h h6 h17]
        split_ifs <;> simp [fmt_packet_number]

theorem run_from_ordinal (k : Nat) :
    ∀ (frames : List (pcap_pkthdr × (Nat → Nat))) (count : Int),
      wrap_int count = count → k < frames.length →
      ((run_from count frames)[k]?).map (printed fmt_packet_number)
        = some [[.int (wrap_int (count + k))]] := by
  induction k with
  | zero =>
    intro frames count hc hk
    cases frames with
    | nil => simp at hk
    | cons f rest =>
      simp only [run_from, List.getElem?_cons_zero, Option.map_some', got_packet_ordinal,
        Nat.cast_zero, add_zero, hc]
  | succ k ih =>
    intro frames count hc hk
    cases frames with
    | nil => simp at hk
    | cons f rest =>
      have hlen : k < rest.length := by simpa using hk
      have hw : wrap_int (wrap_int (count + 1)) = wrap_int (count + 1) := by
        unfold wrap_int; omega
      have hsum : wrap_int (wrap_int (count + 1) + (k : Int))
          = wrap_int (count + ((k + 1 : Nat) : Int)) := by
        unfold wrap_int; push_cast; omega
      simp only [run_from, List.getElem?_cons_succ, got_packet_count]
      rw [ih rest _ hw hlen, hsum]

theorem run_from_length (frames : List (pcap_pkthdr × (Nat → Nat))) :
    ∀ count : Int, (run_from count frames).length = frames.length := by
  induction frames with
  | nil => intro count; rfl
  | cons f rest ih => intro count; simp [run_from, ih]

/-- Counterexample to C13 as stated: when 2147483648 frames are handed to `got_packet`
from process start, the last call, number 2147483648, prints the packet number
-2147483648: the `int` counter has wrapped around. -/
theorem packet_ordinal_wraps :
    ((run (List.replicate 2147483648
        ((⟨54, 54⟩, frame tcp_frame) : pcap_pkthdr × (Nat → Nat))))[2147483647]?).map
      (printed fmt_packet_number) = some [[.int (-2147483648)]]
    ∧ ¬ (∀ (frames : List (pcap_pkthdr × (Nat → Nat))) (k : Nat), k < frames.length →
          ((run frames)[k]?).map (printed fmt_packet_number) = some [[.int ((k : Int) + 1)]]) := by
  have hw : wrap_int ((1 : Int) + ((2147483647 : Nat) : Int)) = -2147483648 := by
    unfold wrap_int; norm_num
  have h := run_from_ordinal 2147483647
    (List.replicate 2147483648 ((⟨54, 54⟩, frame tcp_frame) : pcap_pkthdr × (Nat → Nat))) 1
    (by unfold wrap_int; norm_num) (by rw [List.length_replicate]; norm_num)
  rw [hw] at h
  refine ⟨h, fun hall => ?_⟩
  have h2 := hall
    (List.replicate 2147483648 ((⟨54, 54⟩, frame tcp_frame) : pcap_pkthdr × (Nat → Nat)))
    2147483647 (by rw [List.length_replicate]; norm_num)
  unfold run at h2
  rw [h] at h2
  simp only [Option.some.injEq, List.cons.injEq, Arg.int.injEq, and_true] at h2
  norm_num at h2

/-- C13, amended: for every sequence of frames handed to `got_packet` from process
start, call number `k + 1` prints the packet number `k + 1` as long as
`k + 1 ≤ 2147483647`, the largest `int`; there is one dissection for each frame, and
on every path and for every frame content a call prints the counter it finds and
leaves it incremented once (as a 32-bit `int`). -/
theorem packet_ordinal (frames : List (pcap_pkthdr × (Nat → Nat))) (k : Nat)
    (hk : k < frames.length) (hmax : k + 1 ≤ 2147483647) :
    ((run frames)[k]?).map (printed fmt_packet_number) = some [[.int ((k : Int) + 1)]]
    ∧ (run frames).length = frames.length
    ∧ (∀ (count : Int) (header : pcap_pkthdr) (packet : Nat → Nat),
        printed fmt_packet_number (got_packet count header packet) = [[.int count]]
        ∧ (got_packet count header packet).count = wrap_int (count + 1)
        ∧ (count + 1 ≤ 2147483647 → -2147483648 ≤ count →
            (got_packet count header packet).count = count + 1)) := by
  refine ⟨?_, run_from_length frames 1, fun count header packet =>
    ⟨got_packet_ordinal count header packet, got_packet_count count header packet, ?_⟩⟩
  · have h := run_from_ordinal k frames 1 (by unfold wrap_int; norm_num) hk
    have hw : wrap_int ((1 : Int) + (k : Int)) = (k : Int) + 1 := by
      unfold wrap_int; omega
    rw [hw] at h
    exact h
  · intro h1 h2
    rw [got_packet_count]
    unfold wrap_int
    omega

/-- Witness of C13 amended: four frames, of which the second has an invalid TCP header
length and the fourth is cut short; the fourth call prints the packet number 4. -/
theorem packet_ordinal_witness :
    ((run [(⟨54, 54⟩, frame tcp_frame), (⟨54, 54⟩, frame bad_tcp_frame),
           (⟨42, 42⟩, frame udp_frame), (⟨10, 34⟩, frame short_frame)])[3]?).map
        (printed fmt_packet_number) = some [[.int ((3 : Nat) + 1)]]
    ∧ (run [(⟨54, 54⟩, frame tcp_frame), (⟨54, 54⟩, frame bad_tcp_frame),
           (⟨42, 42⟩, frame udp_frame), (⟨10, 34⟩, frame short_frame)]).length = 4 :=
  have h := packet_ordinal [(⟨54, 54⟩, frame tcp_frame), (⟨54, 54⟩, frame bad_tcp_frame),
    (⟨42, 42⟩, frame udp_frame), (⟨10, 34⟩, frame short_frame)] 3 (by decide) (by decide)
  ⟨h.1, h.2.1⟩

theorem mem_print_payload_reads (payload : Nat) (len : Int) (r : Nat)
    (h : r ∈ print_payload_reads payload len) : payload ≤ r ∧ (r : Int) < payload + len := by
  unfold print_payload_reads at h
  rw [print_payload_calls_eq] at h
  simp only [List.mem_flatMap, List.mem_map, List.mem_range, chunk_call,
    print_hex_ascii_line_reads, List.mem_append, or_self] at h
  obtain ⟨c, ⟨i, hi, rfl⟩, j, hj, rfl⟩ := h
  dsimp only at hj ⊢
  constructor
  · omega
  · push_cast
    omega

theorem got_packet_tcp_reads_header (header header' : pcap_pkthdr) (packet : Nat → Nat) :
    (got_packet_tcp header' packet).2 = (got_packet_tcp header packet).2 := by
  by_cases ht : size_tcp packet < 20
  · rw [got_packet_tcp_invalid header packet ht, got_packet_tcp_invalid header' packet ht]
  · rw [got_packet_tcp_valid header packet ht, got_packet_tcp_valid header' packet ht]

theorem got_packet_reads_header (count count' : Int) (header header' : pcap_pkthdr)
    (packet : Nat → Nat) :
    (got_packet count' header' packet).reads = (got_packet count header packet).reads := by
  by_cases h : size_ip packet < 20
  · rw [got_packet_invalid_ip count header packet h, got_packet_invalid_ip count' header' packet h]
  · by_cases h6 : rd packet 23 = 6
    · rw [got_packet_tcp_case count header packet h h6,
        got_packet_tcp_case count' header' packet h h6]
      simp only [got_packet_tcp_reads_header header header' packet]
    · by_cases h17 : rd packet 23 = 17
      · rw [got_packet_udp_case count header packet h h17,
          got_packet_udp_case count' header' packet h h17]
      · rw [got_packet_other_case count header packet h h6 h17,
          got_packet_other_case count' header' packet h h6 h17]

theorem got_packet_reads_bounds (count : Int) (header : pcap_pkthdr) (packet : Nat → Nat) :
    ∀ i ∈ (got_packet count header packet).reads,
      14 ≤ i ∧ i < 14 + max (size_ip packet + 20) (be16 packet 16) := by
  intro i hi
  have hmax1 := le_max_left (size_ip packet + 20) (be16 packet 16)
  have hmax2 := le_max_right (size_ip packet + 20) (be16 packet 16)
  by_cases h : size_ip packet < 20
  · rw [got_packet_invalid_ip count header packet h] at hi
    simp only [List.mem_singleton] at hi
    omega
  · by_cases h6 : rd packet 23 = 6
    · rw [got_packet_tcp_case count header packet h h6] at hi
      by_cases ht : size_tcp packet < 20
      · rw [got_packet_tcp_invalid header packet ht] at hi
        simp only [List.mem_append, List.mem_cons, List.mem_singleton, List.not_mem_nil,
          or_false] at hi
        omega
      · rw [got_packet_tcp_valid header packet ht] at hi
        simp only [List.mem_append, List.mem_cons, List.mem_singleton, List.not_mem_nil,
          or_false] at hi
        rcases hi with hi | hi | hi
        · omega
        · omega
        · split at hi
          · have hb := mem_print_payload_reads _ _ _ hi
            rw [size_payload_eq] at hb
            push_cast at hb
            omega
          · simp at hi
    · by_cases h17 : rd packet 23 = 17
      · rw [got_packet_udp_case count header packet h h17] at hi
        simp only [got_packet_udp, SIZE_ETHERNET, List.mem_append, List.mem_cons,
          List.mem_singleton, List.not_mem_nil, or_false] at hi
        omega
      · rw [got_packet_other_case count header packet h h6 h17] at hi
        simp only [List.mem_cons, List.mem_singleton, List.not_mem_nil, or_false] at hi
        omega

/-- Counterexample to C14 as stated: the frame `hello_frame` handed over with
`caplen = 40` (six bytes of its TCP header captured) is dissected in full; the TCP
header fields up to offset 46 and the payload bytes 54..58 are read, beyond the
captured length, and no malformed frame is reported. -/
theorem reads_beyond_caplen :
    (got_packet 1 ⟨40, 59⟩ (frame hello_frame)).reads
        = [14, 26, 27, 28, 29, 30, 31, 32, 33, 23, 23, 46, 34, 35, 36, 37, 38, 39, 40, 41,
           42, 43, 44, 45, 16, 17, 54, 55, 56, 57, 58, 54, 55, 56, 57, 58]
    ∧ malformed_reported (got_packet 1 ⟨40, 59⟩ (frame hello_frame)) = false
    ∧ print_payload_called (got_packet 1 ⟨40, 59⟩ (frame hello_frame)) = true
    ∧ ¬ (∀ (count : Int) (header : pcap_pkthdr) (packet : Nat → Nat),
          ∀ i ∈ (got_packet count header packet).reads, i < header.caplen) := by
  have hreads : (got_packet 1 ⟨40, 59⟩ (frame hello_frame)).reads
      = [14, 26, 27, 28, 29, 30, 31, 32, 33, 23, 23, 46, 34, 35, 36, 37, 38, 39, 40, 41,
         42, 43, 44, 45, 16, 17, 54, 55, 56, 57, 58, 54, 55, 56, 57, 58] := by decide
  refine ⟨hreads, by decide, by decide, fun hall => ?_⟩
  have h := hall 1 ⟨40, 59⟩ (frame hello_frame) 58 (by rw [hreads]; decide)
  revert h
  decide

/-- C14, amended: `got_packet` makes no check against `caplen`; the offsets it reads
depend on the bytes of the frame only, not on the header, and all lie below
`14 + max (size_ip + 20) total_length`.  So every offset read is below `caplen` for
every frame whose `caplen` is at least that bound. -/
theorem reads_within_caplen (count : Int) (header : pcap_pkthdr) (packet : Nat → Nat)
    (hcap : 14 + max (size_ip packet + 20) (be16 packet 16) ≤ header.caplen) :
    (∀ i ∈ (got_packet count header packet).reads, i < header.caplen)
    ∧ (∀ (count' : Int) (header' : pcap_pkthdr),
        (got_packet count' header' packet).reads = (got_packet count header packet).reads) := by
  refine ⟨fun i hi => ?_, fun count' header' => got_packet_reads_header _ _ _ _ _⟩
  have := (got_packet_reads_bounds count header packet i hi).2
  omega

/-- Witness of C14 amended: the frame `hello_frame` captured in full, 59 bytes. -/
theorem reads_within_caplen_witness :
    14 + max (size_ip (frame hello_frame) + 20) (be16 (frame hello_frame) 16) ≤ 59
    ∧ (∀ i ∈ (got_packet 1 ⟨59, 59⟩ (frame hello_frame)).reads, i < 59) :=
  ⟨by decide, (reads_within_caplen 1 ⟨59, 59⟩ (frame hello_frame) (by decide)).1⟩

theorem print_hex_ascii_line_congr (m m' : Nat → Nat) (p : Nat) (len offset : Int)
    (h : ∀ i, rd m' (p + i) = rd m (p + i)) :
    print_hex_ascii_line m' p len offset = print_hex_ascii_line m p len offset := by
  simp only [print_hex_ascii_line, line_head, hex_part, ascii_part, h]

theorem print_payload_congr (m m' : Nat → Nat) (p : Nat) (len : Int)
    (h : ∀ i, p ≤ i → rd m' i = rd m i) :
    print_payload m' p len = print_payload m p len := by
  rw [print_payload_eq, print_payload_eq]
  apply List.flatMap_congr
  intro i _
  exact print_hex_ascii_line_congr _ _ _ _ _ fun j => h _ (by omega)

theorem got_packet_congr (count : Int) (header : pcap_pkthdr) (packet packet' : Nat → Nat)
    (hrd : ∀ i, 14 ≤ i → rd packet' i = rd packet i) :
    got_packet count header packet' = got_packet count header packet := by
  have hs : size_ip packet' = size_ip packet := size_ip_congr _ _ (hrd 14 (le_refl 14))
  have ht : size_tcp packet' = size_tcp packet := by
    rw [size_tcp_eq, size_tcp_eq, hs, hrd _ (by omega)]
  have hb : ∀ p, 14 ≤ p → be16 packet' p = be16 packet p := by
    intro p hp
    simp only [be16, hrd p hp, hrd (p + 1) (by omega)]
  have hl : ∀ p, 14 ≤ p → load_u32 packet' p = load_u32 packet p := by
    intro p hp
    simp only [load_u32, hrd p hp, hrd (p + 1) (by omega), hrd (p + 2) (by omega),
      hrd (p + 3) (by omega)]
  have hl16 : ∀ p, 14 ≤ p → load_u16 packet' p = load_u16 packet p := by
    intro p hp
    simp only [load_u16, hrd p hp, hrd (p + 1) (by omega)]
  have hpay : size_payload packet' = size_payload packet := by
    rw [size_payload_eq, size_payload_eq, hs, ht, hb 16 (by omega)]
  have hsrc : inet_ntoa packet' 26 = inet_ntoa packet 26 :=
    inet_ntoa_congr _ _ _ fun i _ => hrd (26 + i) (by omega)
  have hdst : inet_ntoa packet' 30 = inet_ntoa packet 30 :=
    inet_ntoa_congr _ _ _ fun i _ => hrd (30 + i) (by omega)
  have hp23 : rd packet' 23 = rd packet 23 := hrd 23 (by omega)
  by_cases h : size_ip packet < 20
  · rw [got_packet_invalid_ip count header packet h,
      got_packet_invalid_ip count header packet' (by omega), hs]
  · by_cases h6 : rd packet 23 = 6
    · rw [got_packet_tcp_case count header packet h h6,
        got_packet_tcp_case count header packet' (by omega) (by omega), hsrc, hdst]
      by_cases htcp : size_tcp packet < 20
      · rw [got_packet_tcp_invalid header packet htcp,
          got_packet_tcp_invalid header packet' (by omega), hs, ht]
      · rw [got_packet_tcp_valid header packet htcp,
          got_packet_tcp_valid header packet' (by omega), hs, ht, hpay,
          hb _ (by omega), hb _ (by omega), hl _ (by omega), hl _ (by omega),
          print_payload_congr packet packet' _ _ fun i hi => hrd i (by omega)]
    · by_cases h17 : rd packet 23 = 17
      · rw [got_packet_udp_case count header packet h h17,
          got_packet_udp_case count header packet' (by omega) (by omega), hsrc, hdst]
        simp only [got_packet_udp, SIZE_ETHERNET, hs]
        rw [hl16 _ (by omega), hl16 _ (by omega), hl16 _ (by omega)]
      · rw [got_packet_other_case count header packet h h6 h17,
          got_packet_other_case count header packet' (by omega) (by omega) (by omega),
          hsrc, hdst, hp23]

/-- C15: `got_packet` does not depend on the link header.  Two frames that differ only
in the bytes 0..13, handed over with the same header and the same counter, give the
same result (counter, output, offsets read), and no offset below 14 is read at all,
the payload-type code at 12..13 included. -/
theorem link_header_ignored (count : Int) (header : pcap_pkthdr) (packet packet' : Nat → Nat)
    (hsame : ∀ i, 14 ≤ i → packet' i = packet i) :
    got_packet count header packet' = got_packet count header packet
    ∧ (∀ i ∈ (got_packet count header packet).reads, 14 ≤ i) := by
  refine ⟨got_packet_congr count header packet packet' fun i hi => ?_, fun i hi =>
    (got_packet_reads_bounds count header packet i hi).1⟩
  simp only [rd, hsame i hi]

/-- Witness of C15: the frame `hello_frame` and the same frame with every byte of the
link header set to 255. -/
theorem link_header_ignored_witness :
    got_packet 1 ⟨59, 59⟩ (fun i => if i < 14 then 255 else frame hello_frame i)
        = got_packet 1 ⟨59, 59⟩ (frame hello_frame)
    ∧ (∀ i ∈ (got_packet 1 ⟨59, 59⟩ (frame hello_frame)).reads, 14 ≤ i) :=
  link_header_ignored 1 ⟨59, 59⟩ (frame hello_frame)
    (fun i => if i < 14 then 255 else frame hello_frame i)
    (fun i hi => if_neg (by omega))

theorem print_payload_loop_divisors_eq (n : Nat) : 16 < n →
    print_payload_loop_divisors (n : Int)
      = (List.range ((n + 15) / 16 - 1)).map (fun j : Nat => (n : Int) - 16 * j) := by
  induction n using Nat.strong_induction_on with
  | _ n ih =>
    intro hn
    rw [print_payload_loop_divisors]
    have ht : Int.tmod 16 (n : Int) = 16 := tmod_16_of_lt _ (by omega)
    simp only [ht]
    by_cases h2 : (n : Int) - 16 ≤ 16
    · rw [if_pos h2]
      have hk : (n + 15) / 16 - 1 = 1 := by omega
      have hr : List.range 1 = [0] := rfl
      rw [hk, hr]
      simp
    · rw [if_neg h2]
      have hk : (n + 15) / 16 - 1 = ((n - 16 + 15) / 16 - 1) + 1 := by omega
      have hc : ((n : Int) - 16) = ((n - 16 : Nat) : Int) := by omega
      rw [hk, List.range_succ_eq_map, List.map_cons, List.map_map, hc,
        ih (n - 16) (by omega) (by omega)]
      congr 1
      apply List.map_congr_left
      intro j _
      simp only [Function.comp, Nat.succ_eq_add_one]
      push_cast
      omega

theorem print_payload_divisors_eq (len : Int) :
    print_payload_divisors len
      = (List.range ((len.toNat + 15) / 16 - 1)).map (fun j : Nat => len - 16 * j) := by
  unfold print_payload_divisors
  split
  · have h0 : (len.toNat + 15) / 16 - 1 = 0 := by omega
    rw [h0]; rfl
  · split
    · have h0 : (len.toNat + 15) / 16 - 1 = 0 := by omega
      rw [h0]; rfl
    · obtain ⟨n, rfl⟩ : ∃ n : Nat, len = n := ⟨len.toNat, by omega⟩
      rw [print_payload_loop_divisors_eq n (by omega)]
      simp

theorem print_payload_loop_lens (n : Nat) : ∀ (ch : Nat) (offset : Int), 16 < n →
    ∃ last : LineCall,
      print_payload_loop (n : Int) ch offset
        = ((print_payload_loop (n : Int) ch offset).take
              (print_payload_loop_divisors (n : Int)).length) ++ [last]
      ∧ ((print_payload_loop (n : Int) ch offset).take
              (print_payload_loop_divisors (n : Int)).length).map LineCall.len
          = (print_payload_loop_divisors (n : Int)).map (Int.tmod 16) := by
  induction n using Nat.strong_induction_on with
  | _ n ih =>
    intro ch offset hn
    have ht : Int.tmod 16 (n : Int) = 16 := tmod_16_of_lt _ (by omega)
    rw [print_payload_loop, print_payload_loop_divisors]
    simp only [ht]
    by_cases h2 : (n : Int) - 16 ≤ 16
    · simp only [if_pos h2]
      exact ⟨_, rfl, by simp [ht]⟩
    · simp only [if_neg h2]
      have hc : ((n : Int) - 16) = ((n - 16 : Nat) : Int) := by omega
      rw [hc]
      obtain ⟨last, h1, h3⟩ := ih (n - 16) (by omega) (ch + (16 : Int).toNat) (offset + 16)
        (by omega)
      refine ⟨last, ?_, ?_⟩
      · simp only [List.length_cons, List.take_succ_cons, List.cons_append]
        rw [← h1]
      · simp only [List.length_cons, List.take_succ_cons, List.map_cons, h3, ht]


theorem print_payload_calls_head (payload : Nat) (len : Int) (h : 16 < len) :
    (print_payload_calls payload len).head? = some ⟨payload, 16, 0⟩ := by
  rw [print_payload_calls_eq]
  obtain ⟨k, hk⟩ : ∃ k, (len.toNat + 15) / 16 = k + 1 := ⟨(len.toNat + 15) / 16 - 1, by omega⟩
  rw [hk, List.range_succ_eq_map]
  simp only [List.map_cons, List.head?_cons, chunk_call, Option.some.injEq, LineCall.mk.injEq]
  refine ⟨by omega, ?_, by omega⟩
  rw [min_eq_left (by push_cast; omega)]

/-- Counterexample to C16 as stated: there is no payload length above 16 for which the
first line printed by `print_payload` holds fewer than 16 bytes. -/
theorem first_line_never_short :
    ¬ ∃ (payload : Nat) (len : Int), 16 < len
        ∧ ∃ c : LineCall, (print_payload_calls payload len).head? = some c ∧ c.len < 16 := by
  rintro ⟨payload, len, hlen, c, hc, hshort⟩
  rw [print_payload_calls_head payload len hlen] at hc
  cases hc
  exact absurd hshort (by simp)

/-- C16, amended: for every payload length above 16 the per-line length
`line_width % len_rem` of the first iteration is 16, and the first line printed by
`print_payload` holds a full 16 bytes at offset 0. -/
theorem first_line_full (payload : Nat) (len : Int) (hlen : 16 < len) :
    Int.tmod 16 len = 16
    ∧ (print_payload_loop len payload 0).head? = some ⟨payload, Int.tmod 16 len, 0⟩
    ∧ (print_payload_calls payload len).head? = some ⟨payload, 16, 0⟩ := by
  refine ⟨tmod_16_of_lt len hlen, ?_, print_payload_calls_head payload len hlen⟩
  rw [print_payload_loop]
  split <;> rfl

/-- Witness of C16 amended: a payload of 17 bytes. -/
theorem first_line_full_witness :
    Int.tmod 16 17 = 16
    ∧ (print_payload_loop 17 54 0).head? = some ⟨54, Int.tmod 16 17, 0⟩
    ∧ (print_payload_calls 54 17).head? = some ⟨54, 16, 0⟩ :=
  first_line_full 54 17 (by decide)

/-- C17: `print_payload` is total (its loop is defined by recursion on `len_rem`, which
decreases), so it terminates for every `len`, having printed `ceil(len / 16)` lines;
every divisor `len_rem` of `line_width % len_rem` is above 16, hence never zero or
negative; the loop runs `ceil(len / 16) - 1` iterations, with `len_rem` equal to
`len - 16 * j` at iteration `j`, strictly decreasing; and each iteration prints one
line of `16 % len_rem` bytes, the last iteration one more line. -/
theorem modulo_divisor_above_16 (payload : Nat) (len : Int) :
    (print_payload_calls payload len).length = (len.toNat + 15) / 16
    ∧ (∀ d ∈ print_payload_divisors len, 16 < d ∧ d ≠ 0 ∧ d ≤ len)
    ∧ (print_payload_divisors len).length = (len.toNat + 15) / 16 - 1
    ∧ print_payload_divisors len
        = (List.range ((len.toNat + 15) / 16 - 1)).map (fun j : Nat => len - 16 * j)
    ∧ List.Pairwise (fun a b : Int => b < a) (print_payload_divisors len)
    ∧ (16 < len → ∃ last : LineCall,
        print_payload_calls payload len
          = (print_payload_calls payload len).take (print_payload_divisors len).length
              ++ [last]
        ∧ ((print_payload_calls payload len).take (print_payload_divisors len).length).map
              LineCall.len
            = (print_payload_divisors len).map (Int.tmod 16)) := by
  have hd := print_payload_divisors_eq len
  refine ⟨?_, ?_, ?_, hd, ?_, ?_⟩
  · rw [print_payload_calls_eq, List.length_map, List.length_range]
  · intro d hmem
    rw [hd, List.mem_map] at hmem
    obtain ⟨j, hj, rfl⟩ := hmem
    have hj2 := List.mem_range.mp hj
    omega
  · rw [hd, List.length_map, List.length_range]
  · rw [hd, List.pairwise_map]
    exact (List.pairwise_lt_range _).imp fun {a b} hab => by omega
  · intro hlen
    obtain ⟨n, rfl⟩ : ∃ n : Nat, len = n := ⟨len.toNat, by omega⟩
    have h0 : ¬ (n : Int) ≤ 0 := by omega
    have h1 : ¬ (n : Int) ≤ 16 := by omega
    simp only [print_payload_calls, print_payload_divisors, h0, h1, if_false]
    exact print_payload_loop_lens n payload 0 (by omega)

theorem print_payload_called_tcp_branch (header : pcap_pkthdr) (packet : Nat → Nat) :
    ((got_packet_tcp header packet).1.any (fun o =>
        match o with
        | .printf _ _ => false
        | .print_payload _ => true)) = true
      ↔ 20 ≤ size_tcp packet ∧ 0 < size_payload packet := by
  by_cases ht : size_tcp packet < 20
  · rw [got_packet_tcp_invalid header packet ht]
    simp
    omega
  · rw [got_packet_tcp_valid header packet ht]
    by_cases hpos : size_payload packet > 0
    · have hpos2 : 0 < size_payload packet := hpos
      simp [hpos, hpos2]
      omega
    · have hpos2 : ¬ 0 < size_payload packet := hpos
      simp [hpos, hpos2]

theorem print_payload_called_iff (count : Int) (header : pcap_pkthdr) (packet : Nat → Nat) :
    print_payload_called (got_packet count header packet) = true
      ↔ 20 ≤ size_ip packet ∧ rd packet 23 = 6 ∧ 20 ≤ size_tcp packet
          ∧ 0 < size_payload packet := by
  unfold print_payload_called
  by_cases h : size_ip packet < 20
  · rw [got_packet_invalid_ip count header packet h]
    simp
    omega
  · by_cases h6 : rd packet 23 = 6
    · rw [got_packet_tcp_case count header packet h h6]
      simp only [List.any_append, List.any_cons, List.any_nil, Bool.or_false, Bool.false_or,
        Bool.or_eq_true, print_payload_called_tcp_branch, Bool.false_eq_true, false_or]
      exact ⟨fun ⟨h1, h2⟩ => ⟨by omega, h6, h1, h2⟩, fun ⟨_, _, h1, h2⟩ => ⟨h1, h2⟩⟩
    · by_cases h17 : rd packet 23 = 17
      · rw [got_packet_udp_case count header packet h h17]
        simp [got_packet_udp, h6]
      · rw [got_packet_other_case count header packet h h6 h17]
        simp [h6]

/-- C18: for a frame with a valid IP header length and protocol 17, `got_packet` prints
after the protocol name only the two ports and the datagram length, reads only the first
six bytes of the UDP header, never calls `print_payload`, and gives the same result for
every frame with the same bytes at the offsets read, whatever the total length or the
bytes after the UDP header are; and for every frame `print_payload` is called only on
the TCP path with both header lengths valid and `size_payload > 0`. -/
theorem udp_no_payload (count : Int) (header : pcap_pkthdr) (packet : Nat → Nat)
    (hip : 20 ≤ size_ip packet) (hp : rd packet 23 = 17) :
    (got_packet count header packet).out
        = [.printf "\nPacket number %d:\n" [.int count],
           .printf "       From: %s\n" [.str (inet_ntoa packet 26)],
           .printf "         To: %s\n" [.str (inet_ntoa packet 30)],
           .printf "   Protocol: UDP\n" [],
           .printf "**\t\tSource Port : %u\n**\t\tDestination Port : %u\n"
             [.int (load_u16 packet (14 + size_ip packet)),
              .int (load_u16 packet (14 + size_ip packet + 2))],
           .printf "**\t\tUDP Datagram Length : %u\n"
             [.int (load_u16 packet (14 + size_ip packet + 4) / 256)]]
    ∧ (got_packet count header packet).reads
        = [14, 26, 27, 28, 29, 30, 31, 32, 33, 23, 23,
           14 + size_ip packet, 14 + size_ip packet + 1, 14 + size_ip packet + 2,
           14 + size_ip packet + 3, 14 + size_ip packet + 4, 14 + size_ip packet + 5]
    ∧ print_payload_called (got_packet count header packet) = false
    ∧ dump_text (got_packet count header packet) = []
    ∧ (∀ packet' : Nat → Nat,
        (∀ i ∈ (got_packet count header packet).reads, rd packet' i = rd packet i) →
        got_packet count header packet' = got_packet count header packet)
    ∧ (∀ (count' : Int) (header' : pcap_pkthdr) (packet'' : Nat → Nat),
        print_payload_called (got_packet count' header' packet'') = true
          ↔ 20 ≤ size_ip packet'' ∧ rd packet'' 23 = 6 ∧ 20 ≤ size_tcp packet''
              ∧ 0 < size_payload packet'') := by
  have hn : ¬ size_ip packet < 20 := by omega
  have hg := got_packet_udp_case count header packet hn hp
  have hreads : (got_packet count header packet).reads
      = [14, 26, 27, 28, 29, 30, 31, 32, 33, 23, 23,
         14 + size_ip packet, 14 + size_ip packet + 1, 14 + size_ip packet + 2,
         14 + size_ip packet + 3, 14 + size_ip packet + 4, 14 + size_ip packet + 5] := by
    rw [hg]; rfl
  refine ⟨by rw [hg]; simp [got_packet_udp, SIZE_ETHERNET], hreads, ?_, ?_, ?_,
    fun count' header' packet'' => print_payload_called_iff count' header' packet''⟩
  · cases hc : print_payload_called (got_packet count header packet)
    · rfl
    · have := (print_payload_called_iff count header packet).mp hc
      omega
  · rw [hg]
    simp [dump_text, got_packet_udp]
  · intro packet' hagree
    rw [hreads] at hagree
    simp only [List.mem_cons, List.mem_singleton, List.not_mem_nil, or_false,
      forall_eq_or_imp, forall_eq] at hagree
    obtain ⟨h14, h26, h27, h28, h29, h30, h31, h32, h33, h23, -, u0, u1, u2, u3, u4, u5⟩ :=
      hagree
    have hs : size_ip packet' = size_ip packet := size_ip_congr _ _ h14
    have hsrc : inet_ntoa packet' 26 = inet_ntoa packet 26 :=
      inet_ntoa_congr _ _ _ fun i hi => by interval_cases i <;> assumption
    have hdst : inet_ntoa packet' 30 = inet_ntoa packet 30 :=
      inet_ntoa_congr _ _ _ fun i hi => by interval_cases i <;> assumption
    rw [hg, got_packet_udp_case count header packet' (by omega) (by omega), hsrc, hdst]
    have u3' : rd packet' (14 + size_ip packet + 2 + 1)
        = rd packet (14 + size_ip packet + 2 + 1) := u3
    have u5' : rd packet' (14 + size_ip packet + 4 + 1)
        = rd packet (14 + size_ip packet + 4 + 1) := u5
    simp only [got_packet_udp, SIZE_ETHERNET, load_u16, hs, u0, u1, u2, u3', u4, u5']

/-- Witness of C18: the frame `udp_frame`. -/
theorem udp_no_payload_witness :
    (20 ≤ size_ip (frame udp_frame) ∧ rd (frame udp_frame) 23 = 17)
    ∧ print_payload_called (got_packet 1 ⟨42, 42⟩ (frame udp_frame)) = false
    ∧ dump_text (got_packet 1 ⟨42, 42⟩ (frame udp_frame)) = [] :=
  have h := udp_no_payload 1 ⟨42, 42⟩ (frame udp_frame) (by decide) (by decide)
  ⟨by decide, h.2.2.1, h.2.2.2.1⟩

end Sniffex
